import Mathlib

/-!
Verification of the `eeprom-manager` replicated storage engine.

This file is a shallow embedding of the C sources (`eeprom-manager.c`,
`eeprom-manager.h`) into Lean 4.  Device files are modelled as byte lists
(`List Nat`), C strings as the list of bytes before the first NUL, and the
deterministic success path of the POSIX read/write wrappers as pure list
operations (`read_write_all` always transfers the requested span; the
bounded-retry / EINTR machinery of the wrapper has no observable effect on
that path).  The SHA-256 primitive is an external OpenSSL collaborator and is
carried as an abstract function parameter `sha`; the properties the engine
relies on (the hex string has 64 non-NUL characters) appear as hypotheses.
The jansson JSON codec is likewise external: its parse and dump entry points
are parameters, while the object operations used by the engine
(`json_is_object`, `json_object_get`, `json_object_set`, delete) are modelled
concretely on a flat association structure.
-/

set_option linter.unusedVariables false

/-- ASCII bytes of `EEPROM_MANAGER_MAGIC`, the string `"eepman"` (6 characters). -/
def EEPROM_MANAGER_MAGIC : List Nat := [101, 101, 112, 109, 97, 110]

/-- The magic together with its terminating NUL: the C code reads and writes
`strlen(EEPROM_MANAGER_MAGIC) + 1 = 7` bytes for the magic field. -/
def magicZ : List Nat := EEPROM_MANAGER_MAGIC ++ [0]

/-- `EEPROM_MANAGER_SHA_STRING_LENGTH = SHA256_DIGEST_LENGTH * 2 + 1 = 65`. -/
def EEPROM_MANAGER_SHA_STRING_LENGTH : Nat := 65

/-- `EEPROM_MANAGER_WC_STRING_LENGTH = 10 + 1 = 11`. -/
def EEPROM_MANAGER_WC_STRING_LENGTH : Nat := 11

/-- `EEPROM_MANAGER_METADATA_LENGTH = 65 + 11 + strlen("eepman") = 82`. -/
def EEPROM_MANAGER_METADATA_LENGTH : Nat := 82

/-- Position of `EEPROM_MANAGER_ERROR_NO_GOOD_DEVICES_FOUND` in the error enum. -/
def EEPROM_MANAGER_ERROR_NO_GOOD_DEVICES_FOUND : Int := 2

/-- The value of a C string stored in a byte buffer: the bytes strictly before
the first NUL.  `strlen`, `strcmp` and `strncpy` semantics are expressed through
this projection. -/
def cstr (l : List Nat) : List Nat := l.takeWhile (fun b => b ≠ 0)

/-- Overwrite `dst` starting at byte offset `off` with `src`, extending the
file with zero bytes if the write starts past the end (POSIX file semantics
for `write` after `lseek`). -/
def listWriteAt (dst : List Nat) (off : Nat) (src : List Nat) : List Nat :=
  dst.take off ++ List.replicate (off - dst.length) 0 ++ src ++ dst.drop (off + src.length)

/-- Index of the first NUL byte of a buffer, if any. -/
def firstNullIdx : List Nat → Option Nat
  | [] => none
  | b :: rest => if b = 0 then some 0 else (firstNullIdx rest).map (· + 1)

/-- Loop body of `clear_after_null`: walks the buffer keeping the position `r`
of the first NUL seen so far (`none` while not found) and the running index
`j`; every byte from the first NUL onwards is overwritten with NUL. -/
def clearAfterNullGo : List Nat → Option Nat → Nat → Option Nat × List Nat
  | [], r, _ => (r, [])
  | b :: rest, r, j =>
    let r' := match r with
      | some k => some k
      | none => if b = 0 then some j else none
    let b' := match r' with
      | some _ => 0
      | none => b
    let t := clearAfterNullGo rest r' (j + 1)
    (t.1, b' :: t.2)

/-- `clear_after_null(buf, length)`: scans `buf` for the first NUL byte,
clears every subsequent byte, and returns the position of that NUL
(`none` models the C return value `-1`). -/
def clear_after_null (buf : List Nat) : Option Nat × List Nat :=
  clearAfterNullGo buf none 0

/-- ASCII digit test for the bytes consumed by `sscanf("%010u")`. -/
def isDigitB (b : Nat) : Bool := 48 ≤ b && b ≤ 57

/-- `sscanf(buffer, "%010u", &wc)`: reads at most ten decimal digits from the
front of the C string; fails (no conversion) when the first byte is not a
digit.  The converted value is reduced modulo `2^32` (`unsigned int`). -/
def parseWc (s : List Nat) : Option Nat :=
  let ds := (s.takeWhile isDigitB).take 10
  if ds.isEmpty then none
  else some ((ds.foldl (fun a d => a * 10 + (d - 48)) 0) % 4294967296)

/-- `sprintf(buffer, "%010u", wc)`: the ten zero-padded decimal digits of the
write counter.  Every `unsigned int` value (`< 2^32 < 10^10`) prints as
exactly ten digits, so the closed form below is exact. -/
def wcString (w : Nat) : List Nat :=
  [48 + w / 1000000000 % 10, 48 + w / 100000000 % 10, 48 + w / 10000000 % 10,
   48 + w / 1000000 % 10, 48 + w / 100000 % 10, 48 + w / 10000 % 10,
   48 + w / 1000 % 10, 48 + w / 100 % 10, 48 + w / 10 % 10, 48 + w % 10]

/-- `struct eeprom` (eeprom-manager.h) together with the contents of the
backing device file.  `sha256` and `data` hold the C-string values of the
corresponding buffers; `data = none` models a NULL `data` pointer. -/
structure Eeprom where
  bs : Nat
  count : Nat
  sha256 : List Nat
  wc : Nat
  data : Option (List Nat)
  dev : List Nat
  deriving DecidableEq

/-- Byte offset of the footer block: `lseek(fd, -1 * bs, SEEK_END)`. -/
def footerOff (e : Eeprom) : Nat := e.dev.length - e.bs

/-- Result of `read_write_eeprom_metadata(device, 'r')`: the magic
comparison failed (`EEPROM_MANAGER_ERROR_METADATA_BAD_MAGIC`, a positive
enum value), the sha256/wc fields were loaded, or one of the three
`read_write_all` calls ran past end-of-device — `read(2)` then returns `0`
until the attempt limit is hit and `read_write_all` returns `-1` with
`errno = EIO` — and the function aborts with that `-1`. -/
inductive MetaR where
  | badMagic
  | ok
  | ioErr
  deriving DecidableEq

/-- `read_write_eeprom_metadata(device, 'r')`: seeks to `-bs` from the end,
so only `bs` bytes remain before end-of-device.  It reads
`strlen(magic) + 1 = 7` bytes (failing with `-1`/`EIO` when `bs < 7`) and
compares them with `strncmp(·, "eepman", 7)` (which succeeds exactly when
the seven bytes are `"eepman\0"`); on success it reads the 65-byte sha256
field directly into the struct buffer — a short read (`bs < 7 + 65 = 72`)
stores the `bs - 7` bytes that were available over the front of the buffer
and aborts with `-1`; the struct's 65-byte buffer is represented by its
string value zero-padded, which is its reachable raw content: it is
zero-initialised at allocation, `strncpy(·, ·, 65)` zero-pads, and a full
65-byte footer read only happens on devices with `bs ≥ 72`, which never take
this branch — then the 11-byte write counter field (a short read,
`bs < 72 + 11 = 83`, leaves `wc` unchanged, the partial bytes landing in a
local buffer, and aborts with `-1`).  A failed `sscanf` also leaves `wc`
unchanged. -/
def read_eeprom_metadata (e : Eeprom) : MetaR × Eeprom :=
  let off := footerOff e
  if e.bs < 7 then (.ioErr, e)
  else if (e.dev.drop off).take 7 ≠ magicZ then (.badMagic, e)
  else if e.bs < 72 then
    (.ioErr, { e with sha256 := cstr ((e.dev.drop (off + 7)).take (e.bs - 7) ++
      ((e.sha256 ++ List.replicate (EEPROM_MANAGER_SHA_STRING_LENGTH - e.sha256.length) 0).take
        EEPROM_MANAGER_SHA_STRING_LENGTH).drop (e.bs - 7)) })
  else if e.bs < 83 then
    (.ioErr, { e with sha256 := cstr ((e.dev.drop (off + 7)).take EEPROM_MANAGER_SHA_STRING_LENGTH) })
  else
    let sha' := cstr ((e.dev.drop (off + 7)).take EEPROM_MANAGER_SHA_STRING_LENGTH)
    let wc' := match parseWc (cstr ((e.dev.drop (off + 72)).take EEPROM_MANAGER_WC_STRING_LENGTH)) with
      | some w => w
      | none => e.wc
    (.ok, { e with sha256 := sha', wc := wc' })

/-- `read_write_eeprom_metadata(device, 'w')`: seeks to `-bs` from the end and
writes, consecutively, `"eepman\0"` (7 bytes), the 65-byte sha256 buffer
(string value NUL-padded, as left by `strncpy`), and the 11-byte
`"%010u"`-formatted write counter with its NUL. -/
def write_eeprom_metadata (e : Eeprom) : Eeprom :=
  let off := footerOff e
  let shaField := (e.sha256 ++ List.replicate (EEPROM_MANAGER_SHA_STRING_LENGTH - e.sha256.length) 0).take EEPROM_MANAGER_SHA_STRING_LENGTH
  let d1 := listWriteAt e.dev off magicZ
  let d2 := listWriteAt d1 (off + 7) shaField
  let d3 := listWriteAt d2 (off + 72) (wcString e.wc ++ [0])
  { e with dev := d3 }

/-- Read-side block loop of `read_write_eeprom`: transfers blocks of `bs`
bytes from device offset `i * bs` into the buffer, runs `clear_after_null`
on each block as it arrives, and stops at the first block containing a NUL.
Returns the bytes placed in the buffer, the in-block NUL position
(`null_found`), and the final loop index `i`. -/
def readDocLoop (dev : List Nat) (bs : Nat) : Nat → Nat → List Nat × Option Nat × Nat
  | 0, i => ([], none, i)
  | c + 1, i =>
    let block := (dev.drop (i * bs)).take bs
    let t := clear_after_null block
    match t.1 with
    | some j => (t.2, some j, i)
    | none =>
      let rest := readDocLoop dev bs c (i + 1)
      (t.2 ++ rest.1, rest.2.1, rest.2.2)

/-- `read_write_eeprom(device, 'r')`: allocates and zeroes a buffer of
`eeprom_data_size` bytes, reads up to `count` blocks stopping at the first
NUL, then reads the metadata footer.  A footer read that runs past
end-of-device returns `-1` and `if (r < 0) return r;` aborts the whole read
with `-1` (the loaded buffer stays allocated); the `BAD_MAGIC` result, a
positive enum value, does not abort.  Otherwise returns the computed length
`i * bs + null_found` (or `count * bs` when no NUL was seen) and the updated
structure. -/
def read_write_eeprom_r (gsz : Nat) (e : Eeprom) : Int × Eeprom :=
  let t := readDocLoop e.dev e.bs e.count 0
  let buf := t.1 ++ List.replicate (gsz - t.1.length) 0
  let m := read_eeprom_metadata { e with data := some buf }
  if m.1 = .ioErr then (-1, m.2)
  else
    let retval : Int := match t.2.1 with
      | some j => ((t.2.2 * e.bs + j : Nat) : Int)
      | none => ((e.count * e.bs : Nat) : Int)
    (retval, m.2)

/-- Write-side block loop of `read_write_eeprom`: for each block the in-memory
buffer block is first cleaned with `clear_after_null` (mutating the buffer),
then written to the device at offset `i * bs`; the loop stops at the first
block containing a NUL.  Returns the mutated buffer, the device contents,
`null_found`, and the final loop index. -/
def writeDocLoop (bs : Nat) : Nat → Nat → List Nat → List Nat → List Nat × List Nat × Option Nat × Nat
  | 0, i, buf, dev => (buf, dev, none, i)
  | c + 1, i, buf, dev =>
    let block := (buf.drop (i * bs)).take bs
    let t := clear_after_null block
    let buf' := listWriteAt buf (i * bs) t.2
    let dev' := listWriteAt dev (i * bs) t.2
    match t.1 with
    | some j => (buf', dev', some j, i)
    | none => writeDocLoop bs c (i + 1) buf' dev'

/-- `read_write_eeprom(device, 'w')`: fails with `-1` (`EINVAL`) when `data`
is NULL; otherwise zero-fills the footer block, writes the document in
`bs`-sized chunks stopping at the first NUL block, and finally writes the
metadata footer.  Returns the same length computation as the read path. -/
def read_write_eeprom_w (e : Eeprom) : Int × Eeprom :=
  match e.data with
  | none => (-1, e)
  | some buf =>
    let dev0 := listWriteAt e.dev (footerOff e) (List.replicate e.bs 0)
    let t := writeDocLoop e.bs e.count 0 buf dev0
    let retval : Int := match t.2.2.1 with
      | some j => ((t.2.2.2 * e.bs + j : Nat) : Int)
      | none => ((e.count * e.bs : Nat) : Int)
    (retval, write_eeprom_metadata { e with data := some t.1, dev := t.2.1 })

/-- `write_eeprom(device)`: computes the SHA-256 hex string of the cached
document, returns `0` without writing when it equals the cached digest,
and otherwise stores the new digest, increments the write counter
(`unsigned int` arithmetic), and writes the document and footer. -/
def write_eeprom (sha : List Nat → List Nat) (e : Eeprom) : Int × Eeprom :=
  match e.data with
  | none => (-1, e)
  | some buf =>
    let s := sha (cstr buf)
    if e.sha256 = s then (0, e)
    else read_write_eeprom_w { e with sha256 := s, wc := (e.wc + 1) % 4294967296 }

/-- `clone_eeproms(src, dest)`: clears `dest`'s digest so the no-op check in
`write_eeprom` fails, sets `dest->wc = src->wc - 1` (`unsigned int`
arithmetic), borrows `src`'s buffer, writes, and resets `dest->data` to NULL
to prevent a double free. -/
def clone_eeproms (sha : List Nat → List Nat) (src dest : Eeprom) : Int × Eeprom :=
  let d1 := { dest with sha256 := ([] : List Nat), wc := (src.wc + 4294967295) % 4294967296, data := src.data }
  let t := write_eeprom sha d1
  (t.1, { t.2 with data := none })

/-- Result of `verify_eeprom`: success,
`EEPROM_MANAGER_ERROR_CHECKSUM_FAILED`, or the negative return of a failed
`read_write_eeprom` propagated by `if (r < 0) return r;` (the buffer is
freed only on a checksum mismatch, not on a failed read). -/
inductive VerifyR where
  | ok
  | checksumFailed
  | readFailed
  deriving DecidableEq

/-- `verify_eeprom(device)`: reads the device contents (which also re-loads
the footer fields), aborting with the read's negative return on failure;
otherwise recomputes the SHA-256 of the read document and compares it with
the stored digest; on mismatch the read buffer is freed. -/
def verify_eeprom (sha : List Nat → List Nat) (gsz : Nat) (e : Eeprom) : VerifyR × Eeprom :=
  let t := read_write_eeprom_r gsz e
  if t.1 < 0 then (.readFailed, t.2)
  else
    let e1 := t.2
    let s := sha (cstr (e1.data.getD []))
    if s ≠ e1.sha256 then (.checksumFailed, { e1 with data := none })
    else (.ok, e1)

/-- In-memory write counter of the pool entry at index `i` (the C code
dereferences `max_wc_eeprom[0]->wc`; indices stored in the candidate array are
always in range). -/
def wcAt (pool : List Eeprom) (i : Nat) : Nat :=
  match pool.get? i with
  | some e => e.wc
  | none => 0

/-- Metadata phase of `find_good_eeprom`: walks the pool in order, loads each
footer (skipping devices whose magic is absent, `else if (r < 0) return r;`
aborting the whole call when a footer read fails), and maintains the
`max_wc_eeprom` candidate array: the array is reset to the current device
when its counter exceeds the head's, and the current device is appended when
its counter equals the (possibly just reset) head's counter.  The third
component records the abort return (`some (-1)`) when a footer read failed. -/
def findGoodLoop1 : Nat → Nat → List Eeprom → List Nat → List Eeprom × List Nat × Option Int
  | 0, _, pool, ml => (pool, ml, none)
  | f + 1, idx, pool, ml =>
    match pool.get? idx with
    | none => (pool, ml, none)
    | some d =>
      let t := read_eeprom_metadata d
      match t.1 with
      | .badMagic => findGoodLoop1 f (idx + 1) pool ml
      | .ioErr => (pool.set idx t.2, ml, some (-1))
      | .ok =>
        let d' := t.2
        let pool' := pool.set idx d'
        let ml' := match ml with
          | [] => [idx]
          | m0 :: _ =>
            let ml1 := if wcAt pool' m0 < d'.wc then [idx] else ml
            if d'.wc = wcAt pool' (ml1.headD idx) then ml1 ++ [idx] else ml1
        findGoodLoop1 f (idx + 1) pool' ml'

/-- Verification phase of `find_good_eeprom`: tries the candidates in array
order; the first device whose recomputed digest matches is returned, and a
failed candidate has its buffer freed by `verify_eeprom`. -/
def findGoodLoop2 (sha : List Nat → List Nat) (gsz : Nat) : List Nat → List Eeprom → Option Nat × List Eeprom
  | [], pool => (none, pool)
  | idx :: rest, pool =>
    match pool.get? idx with
    | none => (none, pool)
    | some d =>
      let t := verify_eeprom sha gsz d
      let pool' := pool.set idx t.2
      match t.1 with
      | .ok => (some idx, pool')
      | .checksumFailed => findGoodLoop2 sha gsz rest pool'
      | .readFailed => findGoodLoop2 sha gsz rest pool'

/-- `find_good_eeprom(&found)`: loads all footers, builds the list of devices
carrying the maximal write counter (aborting with the read's negative return
when a footer read fails), scans it for the first device whose SHA-256
verifies, and returns `0` with that device, or
`EEPROM_MANAGER_ERROR_NO_GOOD_DEVICES_FOUND` with `found = NULL` when no
candidate verifies. -/
def find_good_eeprom (sha : List Nat → List Nat) (gsz : Nat) (pool : List Eeprom) : Int × Option Nat × List Eeprom :=
  let t := findGoodLoop1 pool.length 0 pool []
  match t.2.2 with
  | some r => (r, none, t.1)
  | none =>
    let r := findGoodLoop2 sha gsz t.2.1 t.1
    match r.1 with
    | some i => (0, some i, r.2)
    | none => (EEPROM_MANAGER_ERROR_NO_GOOD_DEVICES_FOUND, none, r.2)

/-- Loop of `repair_all_eeproms`: every device other than `good_eeprom` whose
write counter is lower or whose digest differs is cloned from the good
device; a failed clone aborts with its return value, and the return value of
the last clone is propagated on success. -/
def repairLoop (sha : List Nat → List Nat) (gi : Nat) : Nat → Nat → Int → List Eeprom → Int × List Eeprom
  | 0, _, racc, pool => (racc, pool)
  | f + 1, i, racc, pool =>
    match pool.get? i with
    | none => (racc, pool)
    | some d =>
      if i = gi then repairLoop sha gi f (i + 1) racc pool
      else
        match pool.get? gi with
        | none => (racc, pool)
        | some g =>
          if d.wc < g.wc ∨ d.sha256 ≠ g.sha256 then
            let t := clone_eeproms sha g d
            let pool' := pool.set i t.2
            if t.1 < 0 then (t.1, pool')
            else repairLoop sha gi f (i + 1) t.1 pool'
          else repairLoop sha gi f (i + 1) racc pool

/-- `repair_all_eeproms(good_eeprom)`: `EINVAL` (`-1`) when the good device is
NULL, otherwise repairs every divergent device in pool order. -/
def repair_all_eeproms (sha : List Nat → List Nat) (gi : Nat) (pool : List Eeprom) : Int × List Eeprom :=
  match pool.get? gi with
  | none => (-1, pool)
  | some _ => repairLoop sha gi pool.length 0 0 pool

/-- Loop of `write_all_eeproms(src)`: each device equal to `src` is written
with `write_eeprom`, every other device is cloned from the current state of
`src`; errors abort, transferred byte counts accumulate. -/
def writeAllLoop (sha : List Nat → List Nat) (srcIdx : Nat) : Nat → Nat → Int → List Eeprom → Int × List Eeprom
  | 0, _, tacc, pool => (tacc, pool)
  | f + 1, i, tacc, pool =>
    match pool.get? i with
    | none => (tacc, pool)
    | some d =>
      let t :=
        if i ≠ srcIdx then
          match pool.get? srcIdx with
          | some s => clone_eeproms sha s d
          | none => write_eeprom sha d
        else write_eeprom sha d
      let pool' := pool.set i t.2
      if t.1 < 0 then (t.1, pool')
      else writeAllLoop sha srcIdx f (i + 1) (tacc + t.1) pool'

/-- `write_all_eeproms(src)` with a non-NULL `src` given by its pool index. -/
def write_all_eeproms (sha : List Nat → List Nat) (srcIdx : Nat) (pool : List Eeprom) : Int × List Eeprom :=
  writeAllLoop sha srcIdx pool.length 0 0 pool

/-- Loop of `load_conf_data`: each successfully scanned `(bs, size)` line is
skipped when `bs < EEPROM_MANAGER_METADATA_LENGTH`; otherwise a descriptor
with `count = size / bs` is appended and `min_size` is lowered (the first
accepted line initialises it).  Returns the descriptors and the final
`min_size`, which becomes `eeprom_data_size`. -/
def loadConfLoop : List (Nat × Nat) → Bool → Nat → List (Nat × Nat) × Nat
  | [], _, minSize => ([], minSize)
  | (bs, size) :: rest, first, minSize =>
    if bs < EEPROM_MANAGER_METADATA_LENGTH then loadConfLoop rest first minSize
    else
      let min' := if size < minSize ∨ first then size else minSize
      let t := loadConfLoop rest false min'
      ((bs, size / bs) :: t.1, t.2)

/-- `load_conf_data()`, abstracted over the already-scanned configuration
lines (path, comment and malformed-line handling is the file parser's
concern): returns the `(bs, count)` descriptors pushed onto the pool and the
resulting `eeprom_data_size`. -/
def load_conf_data (entries : List (Nat × Nat)) : List (Nat × Nat) × Nat :=
  loadConfLoop entries true 0

/-- Flat model of a jansson `json_t` value as consumed by the engine:
objects are ordered key/value entry lists, strings carry their bytes, every
other JSON type is collapsed into `other` (the engine only inspects
objecthood and stringhood). -/
inductive Jansson where
  | obj (entries : List (List Nat × Jansson))
  | str (s : List Nat)
  | other

/-- `json_is_object`. -/
def isObj : Jansson → Bool
  | .obj _ => true
  | _ => false

/-- `json_object_get(root, key)`. -/
def objGet : Jansson → List Nat → Option Jansson
  | .obj es, k => (es.find? (fun p => p.1 == k)).map (fun p => p.2)
  | _, _ => none

/-- `json_object_set(root, key, value)`: replaces an existing entry or
appends a new one. -/
def objSet : Jansson → List Nat → Jansson → Jansson
  | .obj es, k, v =>
    .obj (if es.any (fun p => p.1 == k) then es.map (fun p => if p.1 == k then (k, v) else p) else es ++ [(k, v)])
  | j, _, _ => j

/-- `json_object_del(root, key)`. -/
def objDel : Jansson → List Nat → Jansson
  | .obj es, k => .obj (es.filter (fun p => p.1 != k))
  | j, _ => j

/-- The module-level state the API functions operate on: the pool
(`first_eeprom` linked list in configuration order), the index of
`good_eeprom`, and `eeprom_data_size`. -/
structure Mgr where
  pool : List Eeprom
  gi : Nat
  dataSize : Nat
  deriving DecidableEq

/-- Linux `EINVAL`. -/
def EINVAL : Nat := 22

/-- Return of an API entry point: a plain integer, `-1` with `errno` set, or
one of the `EEPROM_MANAGER_ERROR_*` enum values used on the error paths of
the current sources. -/
inductive EmError where
  | jsonParseFail
  | jsonRootNotObject
  | janssonError
  | writeKeyNotFound
  | readKeyNotFound
  | readKeyNotString
  | writeJsonTooLong
  deriving DecidableEq

/-- Value returned by an API function. -/
inductive ApiRet where
  | num (n : Int)
  | errnoFail (errno : Nat)
  | emErr (e : EmError)
  deriving DecidableEq

/-- `is_initialized()`: the pool head pointer is non-NULL. -/
def is_initialized (st : Mgr) : Bool := !st.pool.isEmpty

/-- `eeprom_manager_set_value(key, value, flags)`: rejects a missing pool, a
NULL key or a NULL value with `errno = EINVAL`; parses the authoritative
buffer, checks objecthood, honours `EEPROM_MANAGER_SET_NO_CREATE`
(`flags & 1`), updates the mapping, serialises compactly, rejects a document
that does not fit in `eeprom_data_size` (including the terminating NUL), and
only then copies the serialisation into the authoritative buffer and writes
every device (the return of `write_all_eeproms` is discarded by the C code).
The jansson parse and dump entry points are the `loads` / `dumps`
parameters; `json_string` and `json_object_set` succeed on the non-NULL
inputs reaching them. -/
def eeprom_manager_set_value (sha : List Nat → List Nat)
    (loads : List Nat → Option Jansson) (dumps : Jansson → Option (List Nat))
    (st : Mgr) (key value : Option (List Nat)) (flags : Nat) : ApiRet × Mgr :=
  if is_initialized st = false ∨ key = none ∨ value = none then (.errnoFail EINVAL, st)
  else
    match st.pool.get? st.gi with
    | none => (.errnoFail EINVAL, st)
    | some g =>
      match loads (cstr (g.data.getD [])) with
      | none => (.emErr .jsonParseFail, st)
      | some root =>
        if isObj root = false then (.emErr .jsonRootNotObject, st)
        else if flags % 2 = 1 ∧ (objGet root (key.getD [])).isNone then (.emErr .writeKeyNotFound, st)
        else
          let root' := objSet root (key.getD []) (.str (value.getD []))
          let g1 := { g with data := some (g.data.getD (List.replicate st.dataSize 0)) }
          let st1 := { st with pool := st.pool.set st.gi g1 }
          match dumps root' with
          | none => (.emErr .janssonError, st1)
          | some dump =>
            if st.dataSize < (cstr dump).length + 1 then (.emErr .writeJsonTooLong, st1)
            else
              let s := cstr dump
              let g2 := { g1 with data := some (s.take st.dataSize ++ List.replicate (st.dataSize - s.length) 0) }
              let st2 := { st with pool := st.pool.set st.gi g2 }
              let w := write_all_eeproms sha st.gi st2.pool
              (.num 0, { st2 with pool := w.2 })

/-- Modelled from the spec: `eeprom_manager_remove_key` is declared in the
header and invoked by the command-line front-end, but its definition is not
among the source files.  Per the specification, remove parses the
authoritative buffer, deletes the mapping if present, serialises, and writes
as in set, with the same JSON error handling. -/
def eeprom_manager_remove_key (sha : List Nat → List Nat)
    (loads : List Nat → Option Jansson) (dumps : Jansson → Option (List Nat))
    (st : Mgr) (key : Option (List Nat)) : ApiRet × Mgr :=
  if is_initialized st = false ∨ key = none then (.errnoFail EINVAL, st)
  else
    match st.pool.get? st.gi with
    | none => (.errnoFail EINVAL, st)
    | some g =>
      match loads (cstr (g.data.getD [])) with
      | none => (.emErr .jsonParseFail, st)
      | some root =>
        if isObj root = false then (.emErr .jsonRootNotObject, st)
        else
          let root' := objDel root (key.getD [])
          match dumps root' with
          | none => (.emErr .janssonError, st)
          | some dump =>
            if st.dataSize < (cstr dump).length + 1 then (.emErr .writeJsonTooLong, st)
            else
              let s := cstr dump
              let g2 := { g with data := some (s.take st.dataSize ++ List.replicate (st.dataSize - s.length) 0) }
              let st2 := { st with pool := st.pool.set st.gi g2 }
              let w := write_all_eeproms sha st.gi st2.pool
              (.num 0, { st2 with pool := w.2 })

/-- `eeprom_manager_read_value(key, value, length)`: rejects a missing pool, a
NULL key or a NULL output buffer with `errno = EINVAL`; parses the
authoritative buffer and copies at most `length` bytes of the string value
(`strncpy`).  The third component is the data placed in the caller's
buffer. -/
def eeprom_manager_read_value (loads : List Nat → Option Jansson)
    (st : Mgr) (key : Option (List Nat)) (valueNull : Bool) (length : Nat) : ApiRet × Mgr × Option (List Nat) :=
  if is_initialized st = false ∨ key = none ∨ valueNull then (.errnoFail EINVAL, st, none)
  else
    match st.pool.get? st.gi with
    | none => (.errnoFail EINVAL, st, none)
    | some g =>
      match loads (cstr (g.data.getD [])) with
      | none => (.emErr .jsonParseFail, st, none)
      | some root =>
        if isObj root = false then (.emErr .jsonRootNotObject, st, none)
        else
          match objGet root (key.getD []) with
          | none => (.emErr .readKeyNotFound, st, none)
          | some (.str s) => (.num 0, st, some (s.take length))
          | some _ => (.emErr .readKeyNotString, st, none)

/-- `eeprom_manager_clear()`: rejects a missing pool with `errno = EINVAL`;
copies the literal `"{}"` into the first device's buffer (`strncpy` with
`eeprom_data_size`), writes all devices from the first one, and makes the
first device authoritative. -/
def eeprom_manager_clear (sha : List Nat → List Nat) (st : Mgr) : ApiRet × Mgr :=
  if is_initialized st = false then (.errnoFail EINVAL, st)
  else
    match st.pool.get? 0 with
    | none => (.errnoFail EINVAL, st)
    | some f =>
      let buf := ([123, 125] : List Nat).take st.dataSize ++ List.replicate (st.dataSize - 2) 0
      let f1 := { f with data := some buf }
      let st1 := { st with pool := st.pool.set 0 f1 }
      let w := write_all_eeproms sha 0 st1.pool
      let st2 := { st with pool := w.2, gi := 0 }
      if w.1 < 0 then (.num w.1, st2) else (.num 0, st2)

/-- Loop of `eeprom_manager_verify`: each device other than `good_eeprom` is
verified; a checksum failure triggers a clone from the good device and makes
the eventual return value `2`; a failed read (`t == -1`) aborts the whole
call with `-1` (without freeing); otherwise the device's buffer is freed
before the next iteration. -/
def verifyLoop (sha : List Nat → List Nat) (gsz gi : Nat) : Nat → Nat → Int → List Eeprom → Int × List Eeprom
  | 0, _, ret, pool => (ret, pool)
  | f + 1, i, ret, pool =>
    match pool.get? i with
    | none => (ret, pool)
    | some d =>
      if i = gi then verifyLoop sha gsz gi f (i + 1) ret pool
      else
        let t := verify_eeprom sha gsz d
        match t.1 with
        | .checksumFailed =>
          match pool.get? gi with
          | none => (ret, pool)
          | some g =>
            let c := clone_eeproms sha g t.2
            let d3 := { c.2 with data := none }
            verifyLoop sha gsz gi f (i + 1) 2 (pool.set i d3)
        | .readFailed => (-1, pool.set i t.2)
        | .ok =>
          let d3 := { t.2 with data := none }
          verifyLoop sha gsz gi f (i + 1) ret (pool.set i d3)

/-- `eeprom_manager_verify()`: rejects a missing pool with `errno = EINVAL`;
returns `1` when every device passed its first check and `2` when at least
one device was repaired. -/
def eeprom_manager_verify (sha : List Nat → List Nat) (st : Mgr) : ApiRet × Mgr :=
  if is_initialized st = false then (.errnoFail EINVAL, st)
  else
    let t := verifyLoop sha st.dataSize st.gi st.pool.length 0 1 st.pool
    (.num t.1, { st with pool := t.2 })

/-- `eeprom_manager_info()`: NULL (with `errno = EINVAL`) when the pool has
not been built, otherwise the head of the pool list. -/
def eeprom_manager_info (st : Mgr) : Option (List Eeprom) :=
  if is_initialized st = false then none else some st.pool

/-- A device footer has a valid magic: its first seven bytes are
`"eepman\0"`. -/
def magicOk (e : Eeprom) : Bool := (e.dev.drop (footerOff e)).take 7 == magicZ

/-- The digest stored in a device footer (C-string value of the 65-byte
field). -/
def footerShaOf (e : Eeprom) : List Nat :=
  cstr ((e.dev.drop (footerOff e + 7)).take EEPROM_MANAGER_SHA_STRING_LENGTH)

/-- The parsed write counter stored in a device footer. -/
def footerWcP (e : Eeprom) : Option Nat :=
  parseWc (cstr ((e.dev.drop (footerOff e + 72)).take EEPROM_MANAGER_WC_STRING_LENGTH))

/-- The write counter stored in a device footer (zero when unparsable). -/
def footerWcOf (e : Eeprom) : Nat := (footerWcP e).getD 0

/-- The document a read of the device yields: the device bytes before the
first NUL. -/
def docOf (e : Eeprom) : List Nat := cstr e.dev

/-- The recomputed SHA-256 of the read document matches the stored footer
digest. -/
def verifiesB (sha : List Nat → List Nat) (e : Eeprom) : Bool :=
  sha (docOf e) == footerShaOf e

/-- Index `i` names an authoritative candidate as described by the quorum
specification: a replica with a valid footer magic, whose stored counter is
maximal among the valid-footer replicas of the pool, and whose recomputed
document digest matches the stored one. -/
def goodIdx (sha : List Nat → List Nat) (pool : List Eeprom) (i : Nat) : Bool :=
  match pool.get? i with
  | none => false
  | some e =>
    magicOk e && pool.all (fun x => !magicOk x || Nat.ble (footerWcOf x) (footerWcOf e)) && verifiesB sha e

/-- Well-formedness of a pool at quorum-selection time: every replica has at
least one block, a block size able to hold the 83 bytes the footer writer
emits, a device file of exactly `bs * count` bytes fitting in the shared
buffer size, no cached buffer, and a parsable counter field whenever its
magic is valid. -/
def poolWF (gsz : Nat) (pool : List Eeprom) : Prop :=
  ∀ e ∈ pool, 0 < e.count ∧ 83 ≤ e.bs ∧ e.dev.length = e.bs * e.count ∧
    e.bs * e.count ≤ gsz ∧ e.data = none ∧ (magicOk e = true → (footerWcP e).isSome = true)

instance (gsz : Nat) (pool : List Eeprom) : Decidable (poolWF gsz pool) := by
  unfold poolWF; infer_instance

/-- Footer counter of the pool entry at index `a` (zero out of range). -/
def fwAt (pool : List Eeprom) (a : Nat) : Nat :=
  match pool.get? a with
  | some e => footerWcOf e
  | none => 0

/-- The pool entry at index `a` exists and has a valid footer magic. -/
def validAt (pool : List Eeprom) (a : Nat) : Prop :=
  ∃ e, pool.get? a = some e ∧ magicOk e = true

/-- A replica after its footer fields have been loaded by
`read_write_eeprom_metadata(·, 'r')`. -/
def metaUpd (e : Eeprom) : Eeprom :=
  { e with sha256 := footerShaOf e, wc := footerWcOf e }

/-- Fixed digest stand-in used by the concrete witnesses: every document
hashes to sixty-four `'a'` characters. -/
def shaFix : List Nat → List Nat := fun _ => List.replicate 64 97

/-- Device image whose footer carries a valid magic, the `shaFix` digest and
counter 1, holding the one-byte document `"A"` (bs 83, two blocks). -/
def devGood : List Nat :=
  (65 :: List.replicate 82 0) ++ (magicZ ++ (List.replicate 64 97 ++ [0]) ++ (wcString 1 ++ [0]))

/-- Pool fixture for the quorum-selection witness: a verifying replica
followed by an uninitialised (all-zero, bad magic) replica. -/
def poolC1 : List Eeprom :=
  [⟨83, 2, [], 0, none, devGood⟩, ⟨83, 2, [], 0, none, List.replicate 166 0⟩]

/-- Pool fixture for the repair witness: a stale replica (lower counter,
empty digest) before the authoritative one. -/
def goodC2 : Eeprom := ⟨83, 2, List.replicate 64 97, 5, some (65 :: List.replicate 165 0), devGood⟩

/-- The divergent replica of the repair witness. -/
def staleC2 : Eeprom := ⟨83, 2, [], 3, none, List.replicate 166 0⟩

/-- Fixture replica for the no-op/counter witness. -/
def eC4 : Eeprom := ⟨2, 2, [1], 7, some [65, 0, 0, 0], List.replicate 4 9⟩

/-- Fixture replica for the footer-layout counterexample and witness. -/
def eC5 : Eeprom := ⟨100, 2, List.replicate 64 97, 1, none, List.replicate 200 7⟩

/-- Fixture replica for the document-read counterexample and witness: two
blocks of two bytes; the document region `[1, 1]` holds no NUL, the footer
block is `[9, 0]`. -/
def eC6 : Eeprom := ⟨2, 2, [], 0, none, [1, 1, 9, 0]⟩

/-- Replica with full-sized blocks (bs 83, two blocks) whose document block
holds no NUL: the read scans on into the footer block, whose first NUL is
the magic's terminator at in-block offset 6. -/
def eC6b : Eeprom :=
  ⟨83, 2, [], 0, none,
    List.replicate 83 1 ++ (magicZ ++ (List.replicate 64 97 ++ [0]) ++ (wcString 1 ++ [0]))⟩

/-- jansson stand-in that parses anything into the empty object. -/
def loadsObjFix : List Nat → Option Jansson := fun _ => some (.obj [])

/-- jansson stand-in whose parse always fails. -/
def loadsFailFix : List Nat → Option Jansson := fun _ => none

/-- jansson stand-in that parses anything into a (non-object) string. -/
def loadsStrFix : List Nat → Option Jansson := fun _ => some (.str [97])

/-- jansson stand-in whose dump always fails. -/
def dumpsFailFix : Jansson → Option (List Nat) := fun _ => none

/-- jansson stand-in dumping every value as ten `'x'` bytes. -/
def dumps10Fix : Jansson → Option (List Nat) := fun _ => some (List.replicate 10 120)

/-- jansson stand-in dumping every value as three hundred `'x'` bytes. -/
def dumps300Fix : Jansson → Option (List Nat) := fun _ => some (List.replicate 300 120)

/-- The replica descriptor produced by `load_conf_data` on the single
configuration line `(bs = 82, size = 83)`, given the device file and an
allocated authoritative buffer. -/
def eC3 : Eeprom :=
  ⟨(load_conf_data [(82, 83)]).1.headD (0, 0) |>.1,
   (load_conf_data [(82, 83)]).1.headD (0, 0) |>.2,
   [], 0, some (List.replicate 83 0), List.replicate 82 5⟩

/-- Manager state for the capacity claims, built from the configuration
`(82, 83)`: `eeprom_data_size` is the configured byte size 83. -/
def stC3 : Mgr := ⟨[eC3], 0, (load_conf_data [(82, 83)]).2⟩

/-- Manager state for the JSON-error and null-value claims: one initialised
replica whose buffer is `"{}"`. -/
def stC7 : Mgr := ⟨[⟨83, 2, List.replicate 64 97, 1, some ([123, 125] ++ List.replicate 164 0), devGood⟩], 0, 166⟩

/-- Uninitialised manager state (`first_eeprom == NULL`). -/
def stEmpty : Mgr := ⟨[], 0, 0⟩

/-! ## Lemmas about `clear_after_null` and first-NUL scanning -/

theorem clearAfterNullGo_length (l : List Nat) (r : Option Nat) (j : Nat) :
    (clearAfterNullGo l r j).2.length = l.length := by
  induction l generalizing r j with
  | nil => rfl
  | cons b rest ih => simp [clearAfterNullGo, ih]

theorem clearAfterNullGo_found (l : List Nat) (k j : Nat) :
    clearAfterNullGo l (some k) j = (some k, List.replicate l.length 0) := by
  induction l generalizing j with
  | nil => rfl
  | cons b rest ih => simp [clearAfterNullGo, ih, List.replicate_succ]

theorem clearAfterNullGo_fst (l : List Nat) (j : Nat) :
    (clearAfterNullGo l none j).1 = (firstNullIdx l).map (· + j) := by
  induction l generalizing j with
  | nil => rfl
  | cons b rest ih =>
    by_cases hb : b = 0
    · simp [clearAfterNullGo, firstNullIdx, hb, clearAfterNullGo_found]
    · simp only [clearAfterNullGo, firstNullIdx, hb, if_neg]
      cases hf : firstNullIdx rest with
      | none => simp [ih, hf]
      | some p => simp [ih, hf]; omega

theorem clearAfterNullGo_snd (l : List Nat) (j : Nat) :
    (clearAfterNullGo l none j).2 =
      match firstNullIdx l with
      | none => l
      | some p => l.take p ++ List.replicate (l.length - p) 0 := by
  induction l generalizing j with
  | nil => rfl
  | cons b rest ih =>
    by_cases hb : b = 0
    · simp [clearAfterNullGo, firstNullIdx, hb, clearAfterNullGo_found, List.replicate_succ]
    · simp only [clearAfterNullGo, firstNullIdx, hb, if_neg]
      cases hf : firstNullIdx rest with
      | none => simp [hf, ih]
      | some p => simp [hf, ih (j + 1)]

theorem clear_after_null_fst (buf : List Nat) :
    (clear_after_null buf).1 = firstNullIdx buf := by
  rw [clear_after_null, clearAfterNullGo_fst]
  cases firstNullIdx buf <;> simp

theorem clear_after_null_none (buf : List Nat) (h : firstNullIdx buf = none) :
    clear_after_null buf = (none, buf) := by
  have h1 := clear_after_null_fst buf
  have h2 := clearAfterNullGo_snd buf 0
  rw [h] at h1
  rw [h] at h2
  exact Prod.ext h1 h2

theorem clear_after_null_some (buf : List Nat) (p : Nat) (h : firstNullIdx buf = some p) :
    clear_after_null buf = (some p, buf.take p ++ List.replicate (buf.length - p) 0) := by
  have h1 := clear_after_null_fst buf
  have h2 := clearAfterNullGo_snd buf 0
  rw [h] at h1
  rw [h] at h2
  exact Prod.ext h1 h2

theorem firstNullIdx_none_iff (l : List Nat) :
    firstNullIdx l = none ↔ ∀ b ∈ l, b ≠ 0 := by
  induction l with
  | nil => simp [firstNullIdx]
  | cons b rest ih =>
    by_cases hb : b = 0
    · subst hb; simp [firstNullIdx]
    · simp only [firstNullIdx, if_neg hb]
      constructor
      · intro h
        have hf : firstNullIdx rest = none := by
          cases hf : firstNullIdx rest with
          | none => rfl
          | some p => rw [hf] at h; simp at h
        intro x hx
        rcases List.mem_cons.mp hx with rfl | hx'
        · exact hb
        · exact ih.mp hf x hx'
      · intro h
        have hrest : firstNullIdx rest = none :=
          ih.mpr (fun x hx => h x (List.mem_cons_of_mem _ hx))
        simp [hrest]

theorem firstNullIdx_some_facts (l : List Nat) (p : Nat) (h : firstNullIdx l = some p) :
    p < l.length ∧ l.get? p = some 0 ∧ ∀ k, k < p → l.get? k ≠ some 0 := by
  induction l generalizing p with
  | nil => simp [firstNullIdx] at h
  | cons b rest ih =>
    by_cases hb : b = 0
    · simp [firstNullIdx, hb] at h
      subst h
      exact ⟨by simp, by simp [hb], by omega⟩
    · simp only [firstNullIdx, hb, if_neg] at h
      cases hf : firstNullIdx rest with
      | none => rw [hf] at h; simp at h
      | some q =>
        rw [hf] at h; simp at h
        obtain ⟨h1, h2, h3⟩ := ih q hf
        subst h
        refine ⟨by simpa using h1, by simpa using h2, ?_⟩
        intro k hk
        cases k with
        | zero => simp [hb]
        | succ k' => simpa using h3 k' (by omega)

theorem cstr_cons (b : Nat) (rest : List Nat) :
    cstr (b :: rest) = if b = 0 then [] else b :: cstr rest := by
  by_cases hb : b = 0 <;> simp [cstr, List.takeWhile_cons, hb]

theorem firstNullIdx_cons (b : Nat) (rest : List Nat) :
    firstNullIdx (b :: rest) = if b = 0 then some 0 else (firstNullIdx rest).map (· + 1) := rfl

theorem cstr_of_no_null (l : List Nat) (h : firstNullIdx l = none) : cstr l = l := by
  induction l with
  | nil => rfl
  | cons b rest ih =>
    rw [firstNullIdx_cons] at h
    by_cases hb : b = 0
    · simp [hb] at h
    · rw [if_neg hb] at h
      cases hf : firstNullIdx rest with
      | none => rw [cstr_cons, if_neg hb, ih hf]
      | some p => rw [hf] at h; simp at h

theorem cstr_append_no_null (l m : List Nat) (h : firstNullIdx l = none) :
    cstr (l ++ m) = l ++ cstr m := by
  induction l with
  | nil => rfl
  | cons b rest ih =>
    rw [firstNullIdx_cons] at h
    by_cases hb : b = 0
    · simp [hb] at h
    · rw [if_neg hb] at h
      cases hf : firstNullIdx rest with
      | none => rw [List.cons_append, cstr_cons, if_neg hb, ih hf, List.cons_append]
      | some p => rw [hf] at h; simp at h

theorem cstr_take_of_some (l : List Nat) (p : Nat) (h : firstNullIdx l = some p) :
    cstr l = l.take p := by
  induction l generalizing p with
  | nil => simp [firstNullIdx] at h
  | cons b rest ih =>
    rw [firstNullIdx_cons] at h
    by_cases hb : b = 0
    · rw [if_pos hb] at h
      simp at h
      subst h hb
      simp [cstr_cons]
    · rw [if_neg hb] at h
      cases hf : firstNullIdx rest with
      | none => rw [hf] at h; simp at h
      | some q =>
        rw [hf] at h
        simp at h
        subst h
        rw [cstr_cons, if_neg hb, ih q hf, List.take_succ_cons]

theorem cstr_append_of_some (l m : List Nat) (p : Nat) (h : firstNullIdx l = some p) :
    cstr (l ++ m) = l.take p := by
  induction l generalizing p with
  | nil => simp [firstNullIdx] at h
  | cons b rest ih =>
    rw [firstNullIdx_cons] at h
    by_cases hb : b = 0
    · rw [if_pos hb] at h
      simp at h
      subst h hb
      simp [cstr_cons]
    · rw [if_neg hb] at h
      cases hf : firstNullIdx rest with
      | none => rw [hf] at h; simp at h
      | some q =>
        rw [hf] at h
        simp at h
        subst h
        rw [List.cons_append, cstr_cons, if_neg hb, ih q hf, List.take_succ_cons]

theorem firstNullIdx_append_of_some (l m : List Nat) (p : Nat) (h : firstNullIdx l = some p) :
    firstNullIdx (l ++ m) = some p := by
  induction l generalizing p with
  | nil => simp [firstNullIdx] at h
  | cons b rest ih =>
    rw [firstNullIdx_cons] at h
    rw [List.cons_append, firstNullIdx_cons]
    by_cases hb : b = 0
    · rw [if_pos hb] at h ⊢; exact h
    · rw [if_neg hb] at h ⊢
      cases hf : firstNullIdx rest with
      | none => rw [hf] at h; simp at h
      | some q =>
        rw [hf] at h
        simp at h
        subst h
        rw [ih q hf]
        rfl

theorem firstNullIdx_append_of_none (l m : List Nat) (h : firstNullIdx l = none) :
    firstNullIdx (l ++ m) = (firstNullIdx m).map (· + l.length) := by
  induction l with
  | nil =>
    cases hf : firstNullIdx m with
    | none => simp [hf]
    | some p => simp [hf]
  | cons b rest ih =>
    rw [firstNullIdx_cons] at h
    rw [List.cons_append, firstNullIdx_cons]
    by_cases hb : b = 0
    · simp [hb] at h
    · rw [if_neg hb] at h ⊢
      cases hf : firstNullIdx rest with
      | none =>
        rw [ih hf]
        cases hm : firstNullIdx m with
        | none => simp
        | some p => simp; omega
      | some p => rw [hf] at h; simp at h

theorem firstNullIdx_take_none (l : List Nat) (p : Nat) (h : firstNullIdx l = some p) :
    firstNullIdx (l.take p) = none := by
  induction l generalizing p with
  | nil => simp [firstNullIdx] at h
  | cons b rest ih =>
    rw [firstNullIdx_cons] at h
    by_cases hb : b = 0
    · rw [if_pos hb] at h
      simp at h
      subst h
      simp [firstNullIdx]
    · rw [if_neg hb] at h
      cases hf : firstNullIdx rest with
      | none => rw [hf] at h; simp at h
      | some q =>
        rw [hf] at h
        simp at h
        subst h
        rw [List.take_succ_cons, firstNullIdx_cons, if_neg hb, ih q hf]
        rfl

theorem firstNullIdx_replicate_zero (n : Nat) (h : 0 < n) :
    firstNullIdx (List.replicate n 0) = some 0 := by
  cases n with
  | zero => omega
  | succ m => rw [List.replicate_succ, firstNullIdx_cons, if_pos rfl]

/-- Block-level characterisation of the read loop of `read_write_eeprom`:
on a region of exactly `bs * c` bytes the loop stops at the block carrying
the region's first NUL (reporting its in-block offset and block index), and
its output buffer agrees with the region up to that NUL; a NUL-free region
is transferred whole. -/
theorem readDocLoop_spec (dev : List Nat) (bs : Nat) (hbs : 0 < bs) :
    ∀ (c i : Nat), (dev.drop (i * bs)).length = bs * c →
      (firstNullIdx (dev.drop (i * bs)) = none →
        readDocLoop dev bs c i = (dev.drop (i * bs), none, i + c)) ∧
      (∀ p, firstNullIdx (dev.drop (i * bs)) = some p →
        (readDocLoop dev bs c i).2.1 = some (p % bs) ∧
        (readDocLoop dev bs c i).2.2 = i + p / bs ∧
        firstNullIdx (readDocLoop dev bs c i).1 = some p ∧
        (readDocLoop dev bs c i).1.take p = (dev.drop (i * bs)).take p) := by
  intro c
  induction c with
  | zero =>
    intro i hlen
    have hnil : dev.drop (i * bs) = [] := List.length_eq_zero.mp (by simpa using hlen)
    constructor
    · intro _
      simp [readDocLoop, hnil]
    · intro p hp
      rw [hnil] at hp
      simp [firstNullIdx] at hp
  | succ c ih =>
    intro i hlen
    have hblock : ((dev.drop (i * bs)).take bs).length = bs := by
      rw [List.length_take, hlen]
      exact Nat.min_eq_left (by nlinarith)
    have hsplit : dev.drop (i * bs) = (dev.drop (i * bs)).take bs ++ (dev.drop (i * bs)).drop bs :=
      (List.take_append_drop bs (dev.drop (i * bs))).symm
    have hdropdrop : (dev.drop (i * bs)).drop bs = dev.drop ((i + 1) * bs) := by
      rw [List.drop_drop]
      congr 1
      ring
    have hlen' : (dev.drop ((i + 1) * bs)).length = bs * c := by
      rw [← hdropdrop, List.length_drop, hlen]
      ring_nf
      omega
    cases hfb : firstNullIdx ((dev.drop (i * bs)).take bs) with
    | some j =>
      have hj := firstNullIdx_some_facts _ _ hfb
      have hjbs : j < bs := by rw [hblock] at hj; exact hj.1
      have hglobal : firstNullIdx (dev.drop (i * bs)) = some j := by
        rw [hsplit]
        exact firstNullIdx_append_of_some _ _ _ hfb
      have hcl := clear_after_null_some _ _ hfb
      rw [hblock] at hcl
      have hrun : readDocLoop dev bs (c + 1) i =
          (((dev.drop (i * bs)).take bs).take j ++ List.replicate (bs - j) 0, some j, i) := by
        simp only [readDocLoop, hcl]
      constructor
      · intro hnone
        rw [hglobal] at hnone
        simp at hnone
      · intro p hp
        rw [hglobal] at hp
        have hpj : j = p := by simpa using hp
        subst hpj
        refine ⟨?_, ?_, ?_, ?_⟩
        · rw [hrun]
          simp [Nat.mod_eq_of_lt hjbs]
        · rw [hrun]
          simp [Nat.div_eq_of_lt hjbs]
        · rw [hrun]
          have h1 : firstNullIdx (((dev.drop (i * bs)).take bs).take j) = none :=
            firstNullIdx_take_none _ _ hfb
          rw [firstNullIdx_append_of_none _ _ h1, firstNullIdx_replicate_zero _ (by omega)]
          simp only [Option.map_some']
          congr 1
          rw [List.length_take, hblock]
          simp [Nat.min_eq_left (Nat.le_of_lt hjbs)]
        · rw [hrun]
          have htlen : (((dev.drop (i * bs)).take bs).take j).length = j := by
            rw [List.length_take, hblock]
            exact Nat.min_eq_left (Nat.le_of_lt hjbs)
          rw [List.take_append_eq_append_take, htlen, Nat.sub_self, List.take_zero,
            List.append_nil, List.take_take, Nat.min_self, List.take_take]
          rw [Nat.min_eq_left (Nat.le_of_lt hjbs)]
    | none =>
      have hclnone := clear_after_null_none _ hfb
      have hrun : readDocLoop dev bs (c + 1) i =
          ((dev.drop (i * bs)).take bs ++ (readDocLoop dev bs c (i + 1)).1,
            (readDocLoop dev bs c (i + 1)).2.1, (readDocLoop dev bs c (i + 1)).2.2) := by
        simp only [readDocLoop, hclnone]
      have hrec := ih (i + 1) hlen'
      have hglobal : firstNullIdx (dev.drop (i * bs)) =
          (firstNullIdx (dev.drop ((i + 1) * bs))).map (· + bs) := by
        rw [hsplit, firstNullIdx_append_of_none _ _ hfb, hdropdrop, hblock]
      constructor
      · intro hnone
        rw [hglobal] at hnone
        have hrecnone : firstNullIdx (dev.drop ((i + 1) * bs)) = none := by
          cases hx : firstNullIdx (dev.drop ((i + 1) * bs)) with
          | none => rfl
          | some q => rw [hx] at hnone; simp at hnone
        have hthis := hrec.1 hrecnone
        rw [hrun, hthis]
        show ((dev.drop (i * bs)).take bs ++ dev.drop ((i + 1) * bs), (none : Option Nat), i + 1 + c)
            = (dev.drop (i * bs), none, i + (c + 1))
        have hfst : (dev.drop (i * bs)).take bs ++ dev.drop ((i + 1) * bs) = dev.drop (i * bs) := by
          conv_rhs => rw [hsplit, hdropdrop]
        rw [hfst]
        simp only [Prod.mk.injEq]
        exact ⟨trivial, trivial, by omega⟩
      · intro p hp
        rw [hglobal] at hp
        cases hx : firstNullIdx (dev.drop ((i + 1) * bs)) with
        | none => rw [hx] at hp; simp at hp
        | some q =>
          rw [hx] at hp
          simp at hp
          obtain ⟨h1, h2, h3, h4⟩ := hrec.2 q hx
          subst hp
          refine ⟨?_, ?_, ?_, ?_⟩
          · rw [hrun]
            show (readDocLoop dev bs c (i + 1)).2.1 = some ((q + bs) % bs)
            rw [h1, Nat.add_mod_right]
          · rw [hrun]
            show (readDocLoop dev bs c (i + 1)).2.2 = i + (q + bs) / bs
            rw [h2, Nat.add_div_right _ hbs]
            omega
          · rw [hrun]
            show firstNullIdx ((dev.drop (i * bs)).take bs ++ (readDocLoop dev bs c (i + 1)).1)
                = some (q + bs)
            rw [firstNullIdx_append_of_none _ _ hfb, h3, hblock]
            rfl
          · rw [hrun]
            show List.take (q + bs) ((dev.drop (i * bs)).take bs ++ (readDocLoop dev bs c (i + 1)).1)
                = List.take (q + bs) (dev.drop (i * bs))
            rw [List.take_append_eq_append_take, hblock]
            conv_rhs => rw [hsplit]
            rw [List.take_append_eq_append_take, hblock, hdropdrop,
              show q + bs - bs = q from by omega, h4]

theorem cstr_replicate_zero (n : Nat) : cstr (List.replicate n 0) = [] := by
  cases n with
  | zero => rfl
  | succ m => rw [List.replicate_succ, cstr_cons, if_pos rfl]

theorem read_eeprom_metadata_of_badMagic (e : Eeprom) (h : magicOk e = false)
    (hbs : 7 ≤ e.bs) :
    read_eeprom_metadata e = (.badMagic, e) := by
  rw [read_eeprom_metadata]
  rw [if_neg (by omega : ¬ e.bs < 7)]
  rw [magicOk] at h
  simp only [beq_eq_false_iff_ne, ne_eq] at h
  rw [if_pos h]

theorem read_eeprom_metadata_of_ok (e : Eeprom) (h : magicOk e = true)
    (hbs : 83 ≤ e.bs) :
    read_eeprom_metadata e =
      (.ok, { e with sha256 := footerShaOf e, wc := (footerWcP e).getD e.wc }) := by
  rw [read_eeprom_metadata]
  rw [magicOk, beq_iff_eq] at h
  rw [if_neg (by omega : ¬ e.bs < 7)]
  rw [if_neg (by simpa using h)]
  rw [if_neg (by omega : ¬ e.bs < 72), if_neg (by omega : ¬ e.bs < 83)]
  rw [footerShaOf, footerWcP]
  cases hp : parseWc (cstr ((e.dev.drop (footerOff e + 72)).take EEPROM_MANAGER_WC_STRING_LENGTH)) with
  | none => simp [footerWcP, hp]
  | some w => simp [footerWcP, hp]

theorem read_eeprom_metadata_ioErr (e : Eeprom)
    (h : e.bs < 7 ∨ (magicOk e = true ∧ e.bs < 83)) :
    (read_eeprom_metadata e).1 = .ioErr := by
  rcases h with h | ⟨hm, h83⟩
  · rw [read_eeprom_metadata, if_pos h]
  · by_cases h7 : e.bs < 7
    · rw [read_eeprom_metadata, if_pos h7]
    · rw [read_eeprom_metadata, if_neg h7]
      rw [magicOk, beq_iff_eq] at hm
      rw [if_neg (by simpa using hm)]
      by_cases h72 : e.bs < 72
      · rw [if_pos h72]
      · rw [if_neg h72, if_pos h83]

theorem read_eeprom_metadata_fields (e : Eeprom) :
    (read_eeprom_metadata e).2.data = e.data ∧ (read_eeprom_metadata e).2.dev = e.dev ∧
    (read_eeprom_metadata e).2.bs = e.bs ∧ (read_eeprom_metadata e).2.count = e.count := by
  rw [read_eeprom_metadata]
  by_cases h1 : e.bs < 7
  · rw [if_pos h1]
    exact ⟨rfl, rfl, rfl, rfl⟩
  · rw [if_neg h1]
    by_cases h2 : (e.dev.drop (footerOff e)).take 7 ≠ magicZ
    · rw [if_pos h2]
      exact ⟨rfl, rfl, rfl, rfl⟩
    · rw [if_neg h2]
      by_cases h3 : e.bs < 72
      · rw [if_pos h3]
        exact ⟨rfl, rfl, rfl, rfl⟩
      · rw [if_neg h3]
        by_cases h4 : e.bs < 83
        · rw [if_pos h4]
          exact ⟨rfl, rfl, rfl, rfl⟩
        · rw [if_neg h4]
          exact ⟨rfl, rfl, rfl, rfl⟩

theorem magicOk_data (e : Eeprom) (d : Option (List Nat)) :
    magicOk { e with data := d } = magicOk e := rfl

theorem footerShaOf_data (e : Eeprom) (d : Option (List Nat)) :
    footerShaOf { e with data := d } = footerShaOf e := rfl

theorem footerWcP_data (e : Eeprom) (d : Option (List Nat)) :
    footerWcP { e with data := d } = footerWcP e := rfl

/-- The block loop of the read path fills the buffer with exactly the device
bytes before the first NUL, and the `i * bs + null_found` computation equals
the offset of that first NUL (`count * bs` when there is none). -/
theorem readDoc_buf_spec (gsz : Nat) (e : Eeprom)
    (hdev : e.dev.length = e.bs * e.count) (hbs : 0 < e.bs) :
    ∃ buf, readDocLoop e.dev e.bs e.count 0 =
      (buf, (readDocLoop e.dev e.bs e.count 0).2.1, (readDocLoop e.dev e.bs e.count 0).2.2) ∧
      cstr (buf ++ List.replicate (gsz - buf.length) 0) = cstr e.dev ∧
      (match (readDocLoop e.dev e.bs e.count 0).2.1 with
        | some j => (((readDocLoop e.dev e.bs e.count 0).2.2 * e.bs + j : Nat) : Int)
        | none => ((e.count * e.bs : Nat) : Int)) =
        (((firstNullIdx e.dev).getD (e.count * e.bs) : Nat) : Int) := by
  have hlen0 : (e.dev.drop (0 * e.bs)).length = e.bs * e.count := by simpa using hdev
  have hspec := readDocLoop_spec e.dev e.bs hbs e.count 0 hlen0
  cases hf : firstNullIdx e.dev with
  | none =>
    have h0 : firstNullIdx (e.dev.drop (0 * e.bs)) = none := by simpa using hf
    have hres := hspec.1 h0
    simp only [Nat.zero_mul, List.drop_zero] at hres
    refine ⟨e.dev, ?_, ?_, ?_⟩
    · rw [hres]
    · rw [cstr_append_no_null _ _ hf, cstr_replicate_zero, List.append_nil,
        cstr_of_no_null _ hf]
    · rw [hres]
      simp
  | some p =>
    have h0 : firstNullIdx (e.dev.drop (0 * e.bs)) = some p := by simpa using hf
    obtain ⟨h1, h2, h3, h4⟩ := hspec.2 p h0
    simp only [Nat.zero_mul, List.drop_zero, Nat.zero_add] at h1 h2 h3 h4
    refine ⟨(readDocLoop e.dev e.bs e.count 0).1, rfl, ?_, ?_⟩
    · rw [cstr_append_of_some _ _ _ h3, h4, ← cstr_take_of_some _ _ hf]
    · rw [h1, h2]
      simp only [Option.getD_some, hf]
      congr 1
      rw [Nat.mul_comm]
      exact Nat.div_add_mod p e.bs

/-- Characterisation of `read_write_eeprom(device, 'r')` on a well-sized
device whose blocks hold the 83 footer bytes: the return value is the offset
of the first NUL anywhere on the device (`count * bs` when there is none),
the device and geometry are untouched, the allocated buffer holds exactly
the device bytes up to the first NUL, and the footer fields are loaded when
and only when the magic is valid. -/
theorem read_write_eeprom_r_spec (gsz : Nat) (e : Eeprom)
    (hdev : e.dev.length = e.bs * e.count) (hbs83 : 83 ≤ e.bs) :
    (read_write_eeprom_r gsz e).1 = (((firstNullIdx e.dev).getD (e.count * e.bs) : Nat) : Int)
  ∧ (read_write_eeprom_r gsz e).2.dev = e.dev
  ∧ (read_write_eeprom_r gsz e).2.bs = e.bs
  ∧ (read_write_eeprom_r gsz e).2.count = e.count
  ∧ (∃ buf, (read_write_eeprom_r gsz e).2.data = some buf ∧ cstr buf = cstr e.dev)
  ∧ (magicOk e = true →
      (read_write_eeprom_r gsz e).2.sha256 = footerShaOf e ∧
      (read_write_eeprom_r gsz e).2.wc = (footerWcP e).getD e.wc)
  ∧ (magicOk e = false →
      (read_write_eeprom_r gsz e).2.sha256 = e.sha256 ∧
      (read_write_eeprom_r gsz e).2.wc = e.wc) := by
  obtain ⟨buf, hloop, hcstr, hret⟩ := readDoc_buf_spec gsz e hdev (by omega)
  have hmagic : magicOk { e with data := some (buf ++ List.replicate (gsz - buf.length) 0) } = magicOk e := rfl
  have h7' : 7 ≤ ({ e with data := some (buf ++ List.replicate (gsz - buf.length) 0) } : Eeprom).bs := by
    show 7 ≤ e.bs
    omega
  have h83' : 83 ≤ ({ e with data := some (buf ++ List.replicate (gsz - buf.length) 0) } : Eeprom).bs := by
    show 83 ≤ e.bs
    omega
  have hread : read_write_eeprom_r gsz e =
      ((((firstNullIdx e.dev).getD (e.count * e.bs) : Nat) : Int),
        (read_eeprom_metadata { e with data := some (buf ++ List.replicate (gsz - buf.length) 0) }).2) := by
    cases hm : magicOk e with
    | false =>
      have hmd := read_eeprom_metadata_of_badMagic _ (hmagic.trans hm) h7'
      rw [read_write_eeprom_r, hloop]
      simp only
      rw [hmd]
      rw [if_neg (fun hc => nomatch hc)]
      rw [hret]
    | true =>
      have hmd := read_eeprom_metadata_of_ok _ (hmagic.trans hm) h83'
      rw [read_write_eeprom_r, hloop]
      simp only
      rw [hmd]
      rw [if_neg (fun hc => nomatch hc)]
      rw [hret]
  cases hm : magicOk e with
  | false =>
    have hmd := read_eeprom_metadata_of_badMagic _ (hmagic.trans hm) h7'
    rw [hread, hmd]
    refine ⟨rfl, rfl, rfl, rfl, ⟨_, rfl, hcstr⟩, by simp [hm], fun _ => ⟨rfl, rfl⟩⟩
  | true =>
    have hmd := read_eeprom_metadata_of_ok _ (hmagic.trans hm) h83'
    rw [hread, hmd]
    refine ⟨rfl, rfl, rfl, rfl, ⟨_, rfl, hcstr⟩, fun _ => ⟨rfl, rfl⟩, by simp [hm]⟩

/-- On every well-sized device — whether or not the footer read succeeds —
the read path leaves the buffer filled with exactly the device bytes before
the first NUL. -/
theorem read_write_eeprom_r_buf (gsz : Nat) (e : Eeprom)
    (hdev : e.dev.length = e.bs * e.count) (hbs : 0 < e.bs) :
    ∃ buf, (read_write_eeprom_r gsz e).2.data = some buf ∧ cstr buf = cstr e.dev := by
  obtain ⟨buf, hloop, hcstr, _⟩ := readDoc_buf_spec gsz e hdev hbs
  refine ⟨buf ++ List.replicate (gsz - buf.length) 0, ?_, hcstr⟩
  rw [read_write_eeprom_r, hloop]
  simp only
  by_cases hio : (read_eeprom_metadata
      { e with data := some (buf ++ List.replicate (gsz - buf.length) 0) }).1 = MetaR.ioErr
  · rw [if_pos hio]
    rw [(read_eeprom_metadata_fields _).1]
  · rw [if_neg hio]
    rw [(read_eeprom_metadata_fields _).1]

theorem get?_replicate_zero (n k : Nat) (h : k < n) :
    (List.replicate n 0 : List Nat).get? k = some 0 := by
  induction n generalizing k with
  | zero => omega
  | succ m ih =>
    cases k with
    | zero => simp [List.replicate_succ]
    | succ k' =>
      rw [List.replicate_succ]
      simpa using ih k' (by omega)

/-- C8: `clear_after_null` returns the index of the first NUL (`none`
standing for the C return `-1` exactly when the buffer holds no NUL), leaves
every byte before the first NUL unchanged, clears every byte strictly after
it, and consequently on the read path the buffer handed to the digest
computation holds exactly the device bytes before the first NUL — no stale
tail content. -/
theorem claim8_clear_after_null (buf : List Nat) :
    (clear_after_null buf).2.length = buf.length
  ∧ ((clear_after_null buf).1 = none ↔ ∀ b ∈ buf, b ≠ 0)
  ∧ ((clear_after_null buf).1 = none → (clear_after_null buf).2 = buf)
  ∧ (∀ p, (clear_after_null buf).1 = some p →
      buf.get? p = some 0 ∧ (∀ k, k < p → buf.get? k ≠ some 0) ∧
      (∀ k, k < p → (clear_after_null buf).2.get? k = buf.get? k) ∧
      (∀ k, p < k → k < buf.length → (clear_after_null buf).2.get? k = some 0))
  ∧ (∀ gsz (e : Eeprom), e.dev.length = e.bs * e.count → 0 < e.bs →
      ∃ b2, (read_write_eeprom_r gsz e).2.data = some b2 ∧ cstr b2 = cstr e.dev) := by
  refine ⟨clearAfterNullGo_length buf none 0, ?_, ?_, ?_, ?_⟩
  · rw [clear_after_null_fst]
    exact firstNullIdx_none_iff buf
  · intro h
    rw [clear_after_null_fst] at h
    rw [clear_after_null_none buf h]
  · intro p hp
    rw [clear_after_null_fst] at hp
    obtain ⟨hlt, hget, hbefore⟩ := firstNullIdx_some_facts buf p hp
    have hsnd := clear_after_null_some buf p hp
    have htk : (buf.take p).length = p := by
      rw [List.length_take]
      omega
    refine ⟨hget, hbefore, ?_, ?_⟩
    · intro k hk
      rw [hsnd]
      show (buf.take p ++ List.replicate (buf.length - p) 0).get? k = buf.get? k
      rw [List.get?_append (by omega)]
      exact List.get?_take hk
    · intro k hpk hklen
      rw [hsnd]
      show (buf.take p ++ List.replicate (buf.length - p) 0).get? k = some 0
      rw [List.get?_append_right (by omega), htk]
      exact get?_replicate_zero _ _ (by omega)
  · intro gsz e hdev hbs
    exact read_write_eeprom_r_buf gsz e hdev hbs

theorem claim8_witness :
    (clear_after_null [1, 0, 2]).2.length = 3 ∧ (clear_after_null [1, 0, 2]).2.get? 2 = some 0 := by
  have h := claim8_clear_after_null [1, 0, 2]
  exact ⟨h.1, (h.2.2.2.1 1 (by decide)).2.2.2 2 (by decide) (by decide)⟩

/-- C6 (amended): on a replica whose blocks hold the 83 footer bytes
(`bs ≥ 83`) the read path transfers up to `count` blocks — when the document
region holds no NUL it continues into the footer block — and returns the
offset of the first NUL byte anywhere on the device (the full `count * bs`
when the device holds none); on every well-sized replica the buffer retains
exactly the bytes before that NUL; and when a trailing footer field runs
past end-of-device (`bs < 7`, or a valid magic with `bs < 83`) the call
fails with `-1` instead of returning a byte count. -/
theorem claim6_read_transfers (gsz : Nat) (e : Eeprom)
    (hdev : e.dev.length = e.bs * e.count) :
    (83 ≤ e.bs →
      (read_write_eeprom_r gsz e).1 = (((firstNullIdx e.dev).getD (e.count * e.bs) : Nat) : Int)
      ∧ (read_write_eeprom_r gsz e).1 ≤ ((e.count * e.bs : Nat) : Int))
  ∧ (0 < e.bs →
      ∃ buf, (read_write_eeprom_r gsz e).2.data = some buf ∧ cstr buf = cstr e.dev)
  ∧ ((e.bs < 7 ∨ (magicOk e = true ∧ e.bs < 83)) →
      (read_write_eeprom_r gsz e).1 = -1) := by
  refine ⟨?_, ?_, ?_⟩
  · intro hbs83
    obtain ⟨h1, h2, h3, h4, h5, h6, h7⟩ := read_write_eeprom_r_spec gsz e hdev hbs83
    refine ⟨h1, ?_⟩
    rw [h1]
    cases hf : firstNullIdx e.dev with
    | none => simp
    | some p =>
      have hplt := (firstNullIdx_some_facts _ _ hf).1
      rw [hdev, Nat.mul_comm] at hplt
      simp only [Option.getD_some]
      exact_mod_cast Nat.le_of_lt hplt
  · intro hbs
    exact read_write_eeprom_r_buf gsz e hdev hbs
  · intro h
    rw [read_write_eeprom_r]
    simp only
    rw [if_pos (read_eeprom_metadata_ioErr
      { e with data := some ((readDocLoop e.dev e.bs e.count 0).1 ++
        List.replicate (gsz - (readDocLoop e.dev e.bs e.count 0).1.length) 0) } h)]

set_option maxRecDepth 40000 in
/-- C6 counterexample: on the replica `eC6b` (block size 83, two blocks, no
NUL in the document block) the read returns 89 — it has scanned into the
footer block and stopped at the magic's NUL terminator — not the claimed
`B * (N - 1) = 83`. -/
theorem claim6_counterexample :
    (read_write_eeprom_r 166 eC6b).1 = 89 ∧
    ((eC6b.bs * (eC6b.count - 1) : Nat) : Int) = 83 ∧
    (read_write_eeprom_r 166 eC6b).1 ≠ ((eC6b.bs * (eC6b.count - 1) : Nat) : Int) := by
  refine ⟨by decide, by decide, by decide⟩

set_option maxRecDepth 40000 in
theorem claim6_witness :
    eC6b.dev.length = eC6b.bs * eC6b.count ∧ 83 ≤ eC6b.bs ∧
    (read_write_eeprom_r 166 eC6b).1 = (((firstNullIdx eC6b.dev).getD (eC6b.count * eC6b.bs) : Nat) : Int) ∧
    eC6.dev.length = eC6.bs * eC6.count ∧ eC6.bs < 7 ∧
    (read_write_eeprom_r 4 eC6).1 = -1 := by
  refine ⟨by decide, by decide, ?_, by decide, by decide, ?_⟩
  · exact ((claim6_read_transfers 166 eC6b (by decide)).1 (by decide)).1
  · exact (claim6_read_transfers 4 eC6 (by decide)).2.2 (Or.inl (by decide))

theorem listWriteAt_restore (l : List Nat) (o n : Nat) (h : o + n ≤ l.length) :
    listWriteAt l o ((l.drop o).take n) = l := by
  unfold listWriteAt
  have h0 : o - l.length = 0 := by omega
  have hlen : ((l.drop o).take n).length = n := by
    rw [List.length_take, List.length_drop]
    omega
  rw [h0, hlen]
  conv_rhs => rw [← List.take_append_drop o l, ← List.take_append_drop n (l.drop o)]
  rw [List.drop_drop]
  simp [List.append_assoc]

theorem listWriteAt_length (l : List Nat) (o : Nat) (s : List Nat) (h : o + s.length ≤ l.length) :
    (listWriteAt l o s).length = l.length := by
  unfold listWriteAt
  simp only [List.length_append, List.length_take, List.length_replicate, List.length_drop]
  omega

theorem listWriteAt_inbounds (l : List Nat) (o : Nat) (s : List Nat) (h : o ≤ l.length) :
    listWriteAt l o s = l.take o ++ s ++ l.drop (o + s.length) := by
  unfold listWriteAt
  have h0 : o - l.length = 0 := by omega
  rw [h0]
  simp [List.append_assoc]

/-- The in-place `clear_after_null` pass of the write loop does not change
the C-string value of the document buffer: every byte it overwrites lies at
or after the first NUL. -/
theorem writeDocLoop_cstr : ∀ (c : Nat) (bs i : Nat) (buf dev : List Nat),
    (i + c) * bs ≤ buf.length →
    firstNullIdx (buf.take (i * bs)) = none →
    cstr (writeDocLoop bs c i buf dev).1 = cstr buf := by
  intro c
  induction c with
  | zero => intro bs i buf dev _ _; rfl
  | succ c ih =>
    intro bs i buf dev hlen hpre
    have hib : i * bs + bs ≤ buf.length := by nlinarith
    have hblock : ((buf.drop (i * bs)).take bs).length = bs := by
      rw [List.length_take, List.length_drop]
      omega
    cases hfb : firstNullIdx ((buf.drop (i * bs)).take bs) with
    | none =>
      have hcl := clear_after_null_none _ hfb
      have hrestore : listWriteAt buf (i * bs) ((buf.drop (i * bs)).take bs) = buf :=
        listWriteAt_restore buf (i * bs) bs hib
      have hrun : writeDocLoop bs (c + 1) i buf dev =
          writeDocLoop bs c (i + 1) buf (listWriteAt dev (i * bs) ((buf.drop (i * bs)).take bs)) := by
        simp only [writeDocLoop, hcl, hrestore]
      rw [hrun]
      refine ih bs (i + 1) buf _ (by nlinarith) ?_
      have htk : buf.take ((i + 1) * bs) = buf.take (i * bs) ++ (buf.drop (i * bs)).take bs := by
        rw [show (i + 1) * bs = i * bs + bs from by ring, List.take_add]
      rw [htk, firstNullIdx_append_of_none _ _ hpre, hfb]
      rfl
    | some j =>
      have hcl := clear_after_null_some _ _ hfb
      rw [hblock] at hcl
      have hjb : j < bs := by
        have := (firstNullIdx_some_facts _ _ hfb).1
        omega
      have hrun : (writeDocLoop bs (c + 1) i buf dev).1 =
          listWriteAt buf (i * bs) (((buf.drop (i * bs)).take bs).take j ++ List.replicate (bs - j) 0) := by
        simp only [writeDocLoop, hcl]
      rw [hrun]
      have hclen : ((((buf.drop (i * bs)).take bs).take j ++ List.replicate (bs - j) 0)).length = bs := by
        rw [List.length_append, List.length_take, List.length_replicate, hblock]
        omega
      rw [listWriteAt_inbounds _ _ _ (by omega)]
      have htkj : firstNullIdx (((buf.drop (i * bs)).take bs).take j) = none :=
        firstNullIdx_take_none _ _ hfb
      have htkjlen : (((buf.drop (i * bs)).take bs).take j).length = j := by
        rw [List.length_take, hblock]
        omega
      have hfcl : firstNullIdx ((((buf.drop (i * bs)).take bs).take j ++ List.replicate (bs - j) 0)) = some j := by
        rw [firstNullIdx_append_of_none _ _ htkj, firstNullIdx_replicate_zero _ (by omega),
          htkjlen]
        simp
      rw [List.append_assoc]
      rw [cstr_append_no_null _ _ hpre]
      rw [cstr_append_of_some _ _ _ hfcl]
      rw [List.take_append_eq_append_take, htkjlen, Nat.sub_self, List.take_zero,
        List.append_nil, List.take_take, Nat.min_self]
      conv_rhs => rw [← List.take_append_drop (i * bs) buf]
      rw [cstr_append_no_null _ _ hpre]
      conv_rhs => rw [← List.take_append_drop bs (buf.drop (i * bs))]
      rw [cstr_append_of_some _ _ _ hfb]

/-- Structure fields after the document-plus-footer write: the metadata and
geometry fields are not modified by `read_write_eeprom(·, 'w')`, the mutated
document buffer stays attached, and the return value is a nonnegative byte
count. -/
theorem read_write_eeprom_w_fields (e : Eeprom) (buf : List Nat) (hd : e.data = some buf) :
    (read_write_eeprom_w e).2.sha256 = e.sha256
  ∧ (read_write_eeprom_w e).2.wc = e.wc
  ∧ (read_write_eeprom_w e).2.bs = e.bs
  ∧ (read_write_eeprom_w e).2.count = e.count
  ∧ (read_write_eeprom_w e).2.data =
      some (writeDocLoop e.bs e.count 0 buf (listWriteAt e.dev (footerOff e) (List.replicate e.bs 0))).1
  ∧ 0 ≤ (read_write_eeprom_w e).1 := by
  simp only [read_write_eeprom_w, hd]
  refine ⟨rfl, rfl, rfl, rfl, rfl, ?_⟩
  cases hx : (writeDocLoop e.bs e.count 0 buf (listWriteAt e.dev (footerOff e) (List.replicate e.bs 0))).2.2.1 with
  | none => simp [hx]; positivity
  | some j => simp [hx]; positivity

theorem write_eeprom_noop (sha : List Nat → List Nat) (e : Eeprom) (buf : List Nat)
    (hd : e.data = some buf) (hs : e.sha256 = sha (cstr buf)) :
    write_eeprom sha e = (0, e) := by
  rw [write_eeprom, hd]
  simp [hs]

/-- Fields after a non-no-op `write_eeprom`: the digest becomes the computed
one, the counter is incremented modulo `2^32`, the geometry is unchanged,
the buffer keeps its C-string value (provided it covers the written blocks),
and the return is a nonnegative count. -/
theorem write_eeprom_write (sha : List Nat → List Nat) (e : Eeprom) (buf : List Nat)
    (hd : e.data = some buf) (hs : e.sha256 ≠ sha (cstr buf)) :
    (write_eeprom sha e).2.sha256 = sha (cstr buf)
  ∧ (write_eeprom sha e).2.wc = (e.wc + 1) % 4294967296
  ∧ (write_eeprom sha e).2.bs = e.bs
  ∧ (write_eeprom sha e).2.count = e.count
  ∧ (∃ buf2, (write_eeprom sha e).2.data = some buf2 ∧
      (e.bs * e.count ≤ buf.length → cstr buf2 = cstr buf))
  ∧ 0 ≤ (write_eeprom sha e).1 := by
  have hrun : write_eeprom sha e =
      read_write_eeprom_w { e with sha256 := sha (cstr buf), wc := (e.wc + 1) % 4294967296 } := by
    rw [write_eeprom, hd]
    simp [hs]
  obtain ⟨f1, f2, f3, f4, f5, f6⟩ :=
    read_write_eeprom_w_fields { e with sha256 := sha (cstr buf), wc := (e.wc + 1) % 4294967296 } buf hd
  rw [hrun]
  refine ⟨f1, f2, f3, f4, ⟨_, f5, ?_⟩, f6⟩
  intro hlen
  refine writeDocLoop_cstr e.count e.bs 0 buf _ ?_ (by simp [firstNullIdx])
  simp only [Nat.zero_add]
  rw [Nat.mul_comm]
  exact hlen

/-- C4: `write_eeprom` on a replica whose cached digest already equals the
digest of the data to be written is a no-op returning 0 that does not touch
the replica; consequently two consecutive writes of the same buffer advance
the counter exactly once when the first write is effective (and not at all
when it is itself a no-op), the second call always being a digest-equal
no-op. -/
theorem claim4_noop_stability (sha : List Nat → List Nat) (e : Eeprom) (buf : List Nat)
    (hd : e.data = some buf) (hlen : e.bs * e.count ≤ buf.length)
    (hwc : e.wc + 1 < 4294967296) :
    (e.sha256 = sha (cstr buf) → write_eeprom sha e = (0, e))
  ∧ (e.sha256 ≠ sha (cstr buf) →
      (write_eeprom sha e).2.wc = e.wc + 1 ∧
      write_eeprom sha (write_eeprom sha e).2 = (0, (write_eeprom sha e).2))
  ∧ (write_eeprom sha (write_eeprom sha e).2).2.wc
      = (if e.sha256 = sha (cstr buf) then e.wc else e.wc + 1) := by
  by_cases hs : e.sha256 = sha (cstr buf)
  · have hnoop := write_eeprom_noop sha e buf hd hs
    refine ⟨fun _ => hnoop, fun hne => absurd hs hne, ?_⟩
    rw [if_pos hs, hnoop]
    simp only
    rw [hnoop]
  · obtain ⟨f1, f2, f3, f4, ⟨buf2, f5, f5c⟩, f6⟩ := write_eeprom_write sha e buf hd hs
    have hcstr : cstr buf2 = cstr buf := f5c hlen
    have hwc1 : (write_eeprom sha e).2.wc = e.wc + 1 := by
      rw [f2, Nat.mod_eq_of_lt hwc]
    have hnoop2 : write_eeprom sha (write_eeprom sha e).2 = (0, (write_eeprom sha e).2) := by
      refine write_eeprom_noop sha _ buf2 f5 ?_
      rw [f1, hcstr]
    refine ⟨fun h => absurd h hs, fun _ => ⟨hwc1, hnoop2⟩, ?_⟩
    rw [if_neg hs, hnoop2]
    simp only
    exact hwc1

theorem claim4_witness :
    eC4.data = some [65, 0, 0, 0] ∧ eC4.bs * eC4.count ≤ 4 ∧ eC4.wc + 1 < 4294967296 ∧
    (eC4.sha256 ≠ shaFix (cstr [65, 0, 0, 0]) →
      (write_eeprom shaFix eC4).2.wc = eC4.wc + 1) := by
  refine ⟨rfl, by decide, by decide, ?_⟩
  intro h
  exact ((claim4_noop_stability shaFix eC4 [65, 0, 0, 0] rfl (by decide) (by decide)).2.1 h).1

/-- Observable effect of `clone_eeproms`: the destination ends with the
source's counter (the pre-decrement is undone by the increment inside
`write_eeprom`, which is never skipped because the cleared digest cannot
equal a 64-character hash), the freshly computed digest, and a NULL buffer
pointer. -/
theorem clone_eeproms_spec (sha : List Nat → List Nat) (g d : Eeprom) (buf : List Nat)
    (hg : g.data = some buf) (hlen64 : (sha (cstr buf)).length = 64)
    (hwc1 : 1 ≤ g.wc) (hwc2 : g.wc < 4294967296) :
    (clone_eeproms sha g d).2.sha256 = sha (cstr buf)
  ∧ (clone_eeproms sha g d).2.wc = g.wc
  ∧ (clone_eeproms sha g d).2.data = none
  ∧ 0 ≤ (clone_eeproms sha g d).1 := by
  have hd1 : ({ d with sha256 := ([] : List Nat), wc := (g.wc + 4294967295) % 4294967296, data := g.data } : Eeprom).data = some buf := by
    simp [hg]
  have hne : ({ d with sha256 := ([] : List Nat), wc := (g.wc + 4294967295) % 4294967296, data := g.data } : Eeprom).sha256 ≠ sha (cstr buf) := by
    intro h
    rw [← h] at hlen64
    simp at hlen64
  obtain ⟨f1, f2, f3, f4, f5, f6⟩ := write_eeprom_write sha _ buf hd1 hne
  refine ⟨?_, ?_, rfl, ?_⟩
  · exact f1
  · rw [clone_eeproms]
    simp only
    rw [f2]
    simp only
    omega
  · exact f6

theorem get?_set_ne (l : List Eeprom) (i j : Nat) (a : Eeprom) (h : i ≠ j) :
    (l.set i a).get? j = l.get? j := by
  rw [List.get?_eq_getElem?, List.get?_eq_getElem?, List.getElem?_set_ne h]

theorem get?_set_self (l : List Eeprom) (i : Nat) (a : Eeprom) (h : i < l.length) :
    (l.set i a).get? i = some a := by
  rw [List.get?_eq_getElem?, List.getElem?_set_self' ]
  simp [List.getElem?_eq_getElem h]

/-- Invariant proof for the repair loop: once every entry before `i` agrees
with the good device and every entry from `i` on carries a counter at most
the good one's, the loop drives the whole pool to the good `(wc, sha256)`
pair. -/
theorem repairLoop_spec (sha : List Nat → List Nat) (gi : Nat) (g : Eeprom) (buf : List Nat)
    (hg : g.data = some buf) (hhash : g.sha256 = sha (cstr buf))
    (hlen64 : (sha (cstr buf)).length = 64)
    (hwc1 : 1 ≤ g.wc) (hwc2 : g.wc < 4294967296) :
    ∀ (f i : Nat) (racc : Int) (pool : List Eeprom),
      pool.length ≤ i + f →
      pool.get? gi = some g →
      (∀ j e', i ≤ j → pool.get? j = some e' → e'.wc ≤ g.wc) →
      (∀ j e', j < i → pool.get? j = some e' → e'.wc = g.wc ∧ e'.sha256 = g.sha256) →
      ∀ j e', (repairLoop sha gi f i racc pool).2.get? j = some e' →
        e'.wc = g.wc ∧ e'.sha256 = g.sha256 := by
  intro f
  induction f with
  | zero =>
    intro i racc pool hfl hgi hrest hdone j e' hj
    simp only [repairLoop] at hj
    have hjl : j < pool.length := by
      by_contra hc
      rw [List.get?_eq_none.mpr (by omega)] at hj
      exact Option.noConfusion hj
    exact hdone j e' (by omega) hj
  | succ f ih =>
    intro i racc pool hfl hgi hrest hdone j e' hj
    cases hpi : pool.get? i with
    | none =>
      simp only [repairLoop, hpi] at hj
      have hil : pool.length ≤ i := List.get?_eq_none.mp hpi
      have hjl : j < pool.length := by
        by_contra hc
        rw [List.get?_eq_none.mpr (by omega)] at hj
        exact Option.noConfusion hj
      exact hdone j e' (by omega) hj
    | some d =>
      by_cases higi : i = gi
      · have hrw : repairLoop sha gi (f + 1) i racc pool = repairLoop sha gi f (i + 1) racc pool := by
          simp only [repairLoop, hpi, if_pos higi]
        rw [hrw] at hj
        refine ih (i + 1) racc pool (by omega) hgi ?_ ?_ j e' hj
        · intro k e'' hk hke
          exact hrest k e'' (by omega) hke
        · intro k e'' hk hke
          by_cases hki : k = i
          · subst hki higi
            rw [hke] at hgi
            cases hgi
            exact ⟨rfl, rfl⟩
          · exact hdone k e'' (by omega) hke
      · by_cases hcond : d.wc < g.wc ∨ d.sha256 ≠ g.sha256
        · obtain ⟨c1, c2, c3, c4⟩ := clone_eeproms_spec sha g d buf hg hlen64 hwc1 hwc2
          have hrw : repairLoop sha gi (f + 1) i racc pool =
              repairLoop sha gi f (i + 1) (clone_eeproms sha g d).1
                (pool.set i (clone_eeproms sha g d).2) := by
            simp only [repairLoop, hpi, if_neg higi, hgi, if_pos hcond, if_neg (not_lt.mpr c4)]
          rw [hrw] at hj
          have hil : i < pool.length := by
            by_contra hc
            rw [List.get?_eq_none.mpr (by omega)] at hpi
            exact Option.noConfusion hpi
          refine ih (i + 1) _ _ (by simp only [List.length_set]; omega) ?_ ?_ ?_ j e' hj
          · rw [get?_set_ne _ _ _ _ higi]
            exact hgi
          · intro k e'' hk hke
            rw [get?_set_ne _ _ _ _ (by omega)] at hke
            exact hrest k e'' (by omega) hke
          · intro k e'' hk hke
            by_cases hki : k = i
            · subst hki
              rw [get?_set_self _ _ _ hil] at hke
              cases hke
              exact ⟨c2, c1.trans hhash.symm⟩
            · rw [get?_set_ne _ _ _ _ (Ne.symm hki)] at hke
              exact hdone k e'' (by omega) hke
        · have hrw : repairLoop sha gi (f + 1) i racc pool = repairLoop sha gi f (i + 1) racc pool := by
            simp only [repairLoop, hpi, if_neg higi, hgi, if_neg hcond]
          rw [hrw] at hj
          push_neg at hcond
          have hdwc : d.wc = g.wc := Nat.le_antisymm (hrest i d (le_refl i) hpi) hcond.1
          refine ih (i + 1) racc pool (by omega) hgi ?_ ?_ j e' hj
          · intro k e'' hk hke
            exact hrest k e'' (by omega) hke
          · intro k e'' hk hke
            by_cases hki : k = i
            · subst hki
              rw [hke] at hpi
              cases hpi
              exact ⟨hdwc, hcond.2⟩
            · exact hdone k e'' (by omega) hke

/-- C2: cloning an authoritative replica `g` (verified digest, cached
buffer, maximal counter) into any destination pre-decrements the counter and
clears the digest so that the write is taken, leaving the destination with
`g`'s counter and digest and a NULL buffer pointer; consequently after
`repair_all_eeproms` every replica of the pool reports `g`'s
`(wc, sha256)` pair. -/
theorem claim2_clone_repair (sha : List Nat → List Nat) (pool : List Eeprom) (gi : Nat)
    (g : Eeprom) (buf : List Nat)
    (hgi : pool.get? gi = some g) (hg : g.data = some buf)
    (hhash : g.sha256 = sha (cstr buf)) (hlen64 : (sha (cstr buf)).length = 64)
    (hwc1 : 1 ≤ g.wc) (hwc2 : g.wc < 4294967296)
    (hmax : ∀ e ∈ pool, e.wc ≤ g.wc) :
    (∀ d, (clone_eeproms sha g d).2.wc = g.wc ∧
          (clone_eeproms sha g d).2.sha256 = g.sha256 ∧
          (clone_eeproms sha g d).2.data = none)
  ∧ (∀ e' ∈ (repair_all_eeproms sha gi pool).2, e'.wc = g.wc ∧ e'.sha256 = g.sha256) := by
  constructor
  · intro d
    obtain ⟨c1, c2, c3, c4⟩ := clone_eeproms_spec sha g d buf hg hlen64 hwc1 hwc2
    exact ⟨c2, c1.trans hhash.symm, c3⟩
  · intro e' he'
    have hrun : repair_all_eeproms sha gi pool = repairLoop sha gi pool.length 0 0 pool := by
      simp only [repair_all_eeproms, hgi]
    rw [hrun] at he'
    obtain ⟨n, hn⟩ := List.get?_of_mem he'
    refine repairLoop_spec sha gi g buf hg hhash hlen64 hwc1 hwc2 pool.length 0 0 pool
      (by omega) hgi ?_ (by omega) n e' hn
    intro j e'' hj hje
    exact hmax e'' (List.get?_mem hje)

theorem claim2_witness :
    ([staleC2, goodC2].get? 1 = some goodC2) ∧
    (∀ e' ∈ (repair_all_eeproms shaFix 1 [staleC2, goodC2]).2,
      e'.wc = goodC2.wc ∧ e'.sha256 = goodC2.sha256) := by
  refine ⟨rfl, ?_⟩
  exact (claim2_clone_repair shaFix [staleC2, goodC2] 1 goodC2 (65 :: List.replicate 165 0)
    rfl rfl (by decide) (by decide) (by decide) (by decide) (by decide)).2

theorem listWriteAt_compose (l : List Nat) (o : Nat) (s t : List Nat) (h : o ≤ l.length) :
    listWriteAt (listWriteAt l o s) (o + s.length) t = listWriteAt l o (s ++ t) := by
  rw [listWriteAt_inbounds l o s h, listWriteAt_inbounds l o (s ++ t) h]
  have hlt : (l.take o).length = o := by
    rw [List.length_take]
    omega
  have h1 : (l.take o ++ s ++ l.drop (o + s.length)).take (o + s.length) = l.take o ++ s := by
    rw [List.take_append_eq_append_take, List.length_append, hlt,
      Nat.sub_eq_zero_of_le (le_refl _), List.take_zero, List.append_nil,
      List.take_of_length_le (by rw [List.length_append, hlt])]
  have h2 : (l.take o ++ s ++ l.drop (o + s.length)).drop (o + s.length + t.length) =
      l.drop (o + (s ++ t).length) := by
    rw [List.drop_append_eq_append_drop, List.length_append, hlt]
    rw [show o + s.length + t.length - (o + s.length) = t.length from by omega]
    rw [List.drop_of_length_le (by rw [List.length_append, hlt]; omega), List.nil_append,
      List.drop_drop]
    congr 1
    simp
    omega
  have ho2 : o + s.length ≤ (l.take o ++ s ++ l.drop (o + s.length)).length := by
    simp only [List.length_append, hlt, List.length_drop]
    omega
  rw [listWriteAt_inbounds _ _ _ ho2, h1, h2]
  simp [List.append_assoc]

theorem field_extract (pre f r : List Nat) (k n : Nat) (h : k + n ≤ f.length) :
    ((pre ++ (f ++ r)).drop (pre.length + k)).take n = (f.drop k).take n := by
  rw [List.drop_append_eq_append_drop, List.drop_eq_nil_of_le (by omega), List.nil_append,
    show pre.length + k - pre.length = k from by omega,
    List.drop_append_eq_append_drop, List.take_append_eq_append_take]
  rw [List.length_drop]
  rw [Nat.sub_eq_zero_of_le (by omega), List.take_zero, List.append_nil]

theorem loadConfLoop_fst : ∀ (entries : List (Nat × Nat)) (first : Bool) (minSize : Nat),
    (loadConfLoop entries first minSize).1 =
      (entries.filter (fun p => 82 ≤ p.1)).map (fun p => (p.1, p.2 / p.1)) := by
  intro entries
  induction entries with
  | nil => intro first minSize; rfl
  | cons e rest ih =>
    intro first minSize
    obtain ⟨bs, size⟩ := e
    by_cases hbs : bs < EEPROM_MANAGER_METADATA_LENGTH
    · have hfilter : (decide (82 ≤ bs)) = false := by
        rw [EEPROM_MANAGER_METADATA_LENGTH] at hbs
        simpa using hbs
      simp only [loadConfLoop, if_pos hbs, List.filter_cons, hfilter, cond_false]
      exact ih first minSize
    · have hfilter : (decide (82 ≤ bs)) = true := by
        rw [EEPROM_MANAGER_METADATA_LENGTH] at hbs
        simpa using hbs
      simp only [loadConfLoop, if_neg hbs, List.filter_cons, hfilter, cond_true, List.map_cons]
      exact congrArg _ (ih false _)

/-- C5 (amended): the footer writer stores the six-character magic `eepman`
followed by its NUL terminator at offsets 0..6 of the footer block, the
64-character digest with its NUL at offsets 7..71, and the ten zero-padded
counter digits with their NUL at offsets 72..82 (83 bytes in all), and the
configuration loader accepts exactly the lines whose block size is at least
`EEPROM_MANAGER_METADATA_LENGTH = 82`. -/
theorem claim5_footer_layout (e : Eeprom)
    (hsha : e.sha256.length = 64) (hbs : 83 ≤ e.bs) (hcount : 1 ≤ e.count)
    (hdev : e.dev.length = e.bs * e.count) :
    ((write_eeprom_metadata e).dev.drop (footerOff e)).take 7 = magicZ
  ∧ ((write_eeprom_metadata e).dev.drop (footerOff e + 7)).take 65 = e.sha256 ++ [0]
  ∧ ((write_eeprom_metadata e).dev.drop (footerOff e + 72)).take 11 = wcString e.wc ++ [0]
  ∧ (write_eeprom_metadata e).dev.length = e.dev.length
  ∧ ∀ entries : List (Nat × Nat),
      (load_conf_data entries).1 =
        (entries.filter (fun p => 82 ≤ p.1)).map (fun p => (p.1, p.2 / p.1)) := by
  have hble : e.bs ≤ e.dev.length := by
    rw [hdev]
    calc e.bs = e.bs * 1 := by ring
    _ ≤ e.bs * e.count := Nat.mul_le_mul_left _ hcount
  have hoffle : footerOff e ≤ e.dev.length := by rw [footerOff]; omega
  have hoff83 : footerOff e + 83 ≤ e.dev.length := by rw [footerOff]; omega
  have hshaF : (e.sha256 ++ List.replicate (EEPROM_MANAGER_SHA_STRING_LENGTH - e.sha256.length) 0).take EEPROM_MANAGER_SHA_STRING_LENGTH = e.sha256 ++ [0] := by
    show (e.sha256 ++ List.replicate (65 - e.sha256.length) 0).take 65 = e.sha256 ++ [0]
    rw [hsha]
    show (e.sha256 ++ List.replicate 1 0).take 65 = e.sha256 ++ [0]
    rw [List.replicate_one, List.take_of_length_le (by simp [hsha])]
  have h7 : magicZ.length = 7 := rfl
  have h65 : (e.sha256 ++ ([0] : List Nat)).length = 65 := by simp [hsha]
  have h72 : (magicZ ++ (e.sha256 ++ ([0] : List Nat))).length = 72 := by
    rw [List.length_append, h7, h65]
  have h11 : (wcString e.wc ++ ([0] : List Nat)).length = 11 := by
    simp [wcString]
  have hdev3 : (write_eeprom_metadata e).dev =
      listWriteAt e.dev (footerOff e)
        (magicZ ++ ((e.sha256 ++ [0]) ++ (wcString e.wc ++ [0]))) := by
    simp only [write_eeprom_metadata, hshaF]
    have c1 := listWriteAt_compose e.dev (footerOff e) magicZ (e.sha256 ++ [0]) hoffle
    rw [h7] at c1
    rw [c1]
    have c2 := listWriteAt_compose e.dev (footerOff e) (magicZ ++ (e.sha256 ++ [0]))
      (wcString e.wc ++ [0]) hoffle
    rw [h72] at c2
    rw [c2, List.append_assoc]
  have hF83 : (magicZ ++ ((e.sha256 ++ ([0] : List Nat)) ++ (wcString e.wc ++ [0]))).length = 83 := by
    rw [List.length_append, List.length_append, h7, h65, h11]
  have hform : (write_eeprom_metadata e).dev =
      e.dev.take (footerOff e) ++
        ((magicZ ++ ((e.sha256 ++ [0]) ++ (wcString e.wc ++ [0]))) ++ e.dev.drop (footerOff e + 83)) := by
    rw [hdev3, listWriteAt_inbounds _ _ _ hoffle, hF83, List.append_assoc]
  have hpre : (e.dev.take (footerOff e)).length = footerOff e := by
    rw [List.length_take]
    omega
  refine ⟨?_, ?_, ?_, ?_, fun entries => loadConfLoop_fst entries true 0⟩
  · have hx := field_extract (e.dev.take (footerOff e))
      (magicZ ++ ((e.sha256 ++ [0]) ++ (wcString e.wc ++ [0]))) (e.dev.drop (footerOff e + 83))
      0 7 (by rw [hF83]; omega)
    rw [hpre, Nat.add_zero, List.drop_zero] at hx
    rw [hform, hx, List.take_append_eq_append_take, h7, Nat.sub_self, List.take_zero,
      List.append_nil, List.take_of_length_le (le_of_eq h7)]
  · have hx := field_extract (e.dev.take (footerOff e))
      (magicZ ++ ((e.sha256 ++ [0]) ++ (wcString e.wc ++ [0]))) (e.dev.drop (footerOff e + 83))
      7 65 (by rw [hF83]; omega)
    rw [hpre] at hx
    have hd7 : (magicZ ++ ((e.sha256 ++ ([0] : List Nat)) ++ (wcString e.wc ++ [0]))).drop 7
        = (e.sha256 ++ [0]) ++ (wcString e.wc ++ [0]) := by
      rw [List.drop_append_eq_append_drop, h7, Nat.sub_self, List.drop_zero,
        List.drop_eq_nil_of_le (le_of_eq h7)]
      simp
    rw [hform, hx, hd7]
    rw [List.take_append_eq_append_take, h65, Nat.sub_self, List.take_zero, List.append_nil]
    exact List.take_of_length_le (le_of_eq h65)
  · have hx := field_extract (e.dev.take (footerOff e))
      (magicZ ++ ((e.sha256 ++ [0]) ++ (wcString e.wc ++ [0]))) (e.dev.drop (footerOff e + 83))
      72 11 (by rw [hF83])
    rw [hpre] at hx
    have hd72 : (magicZ ++ ((e.sha256 ++ ([0] : List Nat)) ++ (wcString e.wc ++ [0]))).drop 72
        = wcString e.wc ++ [0] := by
      rw [List.drop_append_eq_append_drop, List.drop_eq_nil_of_le (by rw [h7]; omega),
        List.nil_append, h7, show (72 : Nat) - 7 = 65 from rfl,
        List.drop_append_eq_append_drop, h65, Nat.sub_self, List.drop_zero,
        List.drop_eq_nil_of_le (le_of_eq h65)]
      simp
    rw [hform, hx, hd72]
    exact List.take_of_length_le (le_of_eq h11)
  · rw [hform]
    rw [List.length_append, List.length_append, hpre, hF83, List.length_drop]
    omega

set_option maxRecDepth 20000 in
/-- C5 counterexample: with a 64-`'a'` digest, the byte at footer offset 5
is the magic's sixth character `'n'` (110), not the first digest character
`'a'` (97) the claimed layout (magic at 0..4, digest at 5..68) requires; and
a configuration line with block size 80 — legal under the claimed
footer-length-79 bound — is rejected by the loader. -/
theorem claim5_counterexample :
    ((write_eeprom_metadata eC5).dev.drop 100).get? 5 = some 110 ∧
    eC5.sha256.get? 0 = some 97 ∧ (110 : Nat) ≠ 97 ∧
    (load_conf_data [(80, 400)]).1 = [] := by
  refine ⟨by decide, by decide, by decide, by decide⟩

set_option maxRecDepth 20000 in
theorem claim5_witness :
    eC5.sha256.length = 64 ∧
    ((write_eeprom_metadata eC5).dev.drop (footerOff eC5 + 7)).take 65 = eC5.sha256 ++ [0] := by
  refine ⟨by decide, ?_⟩
  exact (claim5_footer_layout eC5 (by decide) (by decide) (by decide) (by decide)).2.1

theorem loadConfLoop_min_false : ∀ (entries : List (Nat × Nat)) (m : Nat),
    (loadConfLoop entries false m).2 =
      ((entries.filter (fun p => 82 ≤ p.1)).map (fun p => p.2)).foldl min m := by
  intro entries
  induction entries with
  | nil => intro m; rfl
  | cons e rest ih =>
    intro m
    obtain ⟨bs, size⟩ := e
    by_cases hbs : bs < EEPROM_MANAGER_METADATA_LENGTH
    · have hfilter : (decide (82 ≤ bs)) = false := by
        rw [EEPROM_MANAGER_METADATA_LENGTH] at hbs
        simpa using hbs
      simp only [loadConfLoop, if_pos hbs, List.filter_cons, hfilter, cond_false]
      exact ih m
    · have hfilter : (decide (82 ≤ bs)) = true := by
        rw [EEPROM_MANAGER_METADATA_LENGTH] at hbs
        simpa using hbs
      have hmin : (if size < m ∨ false = true then size else m) = min m size := by
        rw [Nat.min_def]
        by_cases hc : size < m
        · rw [if_pos (Or.inl hc), if_neg (by omega)]
        · rw [if_neg (by simp [hc]), if_pos (by omega)]
      simp only [loadConfLoop, if_neg hbs, List.filter_cons, hfilter, cond_true, List.map_cons,
        List.foldl_cons, hmin]
      exact ih (min m size)

theorem loadConfLoop_min_true (entries : List (Nat × Nat)) :
    (load_conf_data entries).2 =
      (match (entries.filter (fun p => 82 ≤ p.1)).map (fun p => p.2) with
        | [] => 0
        | s :: rest => rest.foldl min s) := by
  rw [load_conf_data]
  induction entries with
  | nil => rfl
  | cons e rest ih =>
    obtain ⟨bs, size⟩ := e
    by_cases hbs : bs < EEPROM_MANAGER_METADATA_LENGTH
    · have hfilter : (decide (82 ≤ bs)) = false := by
        rw [EEPROM_MANAGER_METADATA_LENGTH] at hbs
        simpa using hbs
      simp only [loadConfLoop, if_pos hbs, List.filter_cons, hfilter, cond_false]
      exact ih
    · have hfilter : (decide (82 ≤ bs)) = true := by
        rw [EEPROM_MANAGER_METADATA_LENGTH] at hbs
        simpa using hbs
      have hmin : (if size < 0 ∨ true = true then size else 0) = size := by
        rw [if_pos (Or.inr rfl)]
      simp only [loadConfLoop, if_neg hbs, List.filter_cons, hfilter, cond_true, List.map_cons,
        hmin]
      exact loadConfLoop_min_false rest size

theorem eeprom_data_eta (g : Eeprom) (b : List Nat) (h : g.data = some b) :
    ({ g with data := some b } : Eeprom) = g := by
  cases g
  simp only at h
  simp [h]

theorem set_self_of_get? (l : List Eeprom) (i : Nat) (a : Eeprom) (h : l.get? i = some a) :
    l.set i a = l := by
  have hil : i < l.length := by
    by_contra hc
    rw [List.get?_eq_none.mpr (by omega)] at h
    exact Option.noConfusion h
  apply List.ext_get?
  intro n
  by_cases hn : i = n
  · subst hn
    rw [get?_set_self _ _ _ hil, h]
  · rw [get?_set_ne _ _ _ _ hn]

/-- C3 (amended): `set` fails with `WRITE_JSON_TOOLONG` and leaves the whole
manager state (and hence every device, digest and counter) unchanged exactly
when the serialised document plus its terminating NUL does not fit in
`eeprom_data_size`, and `eeprom_data_size` is the minimum of the configured
*total byte sizes* of the accepted configuration lines — a bound that
includes the footer block, not `min(B * N - 79)`. -/
theorem claim3_capacity (sha : List Nat → List Nat)
    (loads : List Nat → Option Jansson) (dumps : Jansson → Option (List Nat))
    (st : Mgr) (kk vv : List Nat) (flags : Nat)
    (g : Eeprom) (gb : List Nat) (root : Jansson) (dump : List Nat)
    (hne : st.pool.isEmpty = false)
    (hgi : st.pool.get? st.gi = some g)
    (hgd : g.data = some gb)
    (hloads : loads (cstr gb) = some root)
    (hobj : isObj root = true)
    (hnc : ¬(flags % 2 = 1 ∧ (objGet root kk).isNone = true))
    (hdumps : dumps (objSet root kk (.str vv)) = some dump)
    (htoolong : st.dataSize < (cstr dump).length + 1) :
    eeprom_manager_set_value sha loads dumps st (some kk) (some vv) flags
      = (.emErr .writeJsonTooLong, st)
  ∧ ∀ entries, (load_conf_data entries).2 =
      (match (entries.filter (fun p => 82 ≤ p.1)).map (fun p => p.2) with
        | [] => 0
        | s :: rest => rest.foldl min s) := by
  refine ⟨?_, loadConfLoop_min_true⟩
  simp only [eeprom_manager_set_value]
  rw [if_neg (by simp [is_initialized, hne])]
  simp only [hgi, hgd, Option.getD_some, hloads, hobj, Bool.true_eq_false, if_false]
  rw [if_neg hnc]
  simp only [hdumps]
  rw [if_pos htoolong]
  rw [eeprom_data_eta g gb hgd, set_self_of_get? _ _ _ hgi]

set_option maxRecDepth 20000 in
/-- C3 counterexample: with the single configuration line `(bs 82, size
83)`, `eeprom_data_size` is the configured 83 bytes while the claimed
capacity `B * N - 79` is `82 * 1 - 79 = 3`; a 10-byte document exceeds the
claimed capacity yet `set` succeeds (returns 0), refuting the claim. -/
theorem claim3_counterexample :
    stC3.dataSize = 83 ∧
    (stC3.pool.headD eC3).bs * (stC3.pool.headD eC3).count - 79 = 3 ∧
    3 < (cstr (List.replicate 10 120)).length ∧
    (eeprom_manager_set_value shaFix loadsObjFix dumps10Fix stC3 (some [107]) (some [118]) 0).1
      = ApiRet.num 0 ∧
    (eeprom_manager_set_value shaFix loadsObjFix dumps10Fix stC3 (some [107]) (some [118]) 0).1
      ≠ ApiRet.emErr .writeJsonTooLong := by
  refine ⟨by decide, by decide, by decide, by decide, by decide⟩

set_option maxRecDepth 20000 in
theorem claim3_witness :
    eeprom_manager_set_value shaFix loadsObjFix dumps300Fix stC3 (some [107]) (some [118]) 0
      = (.emErr .writeJsonTooLong, stC3) := by
  exact (claim3_capacity shaFix loadsObjFix dumps300Fix stC3 [107] [118] 0 eC3
    (List.replicate 83 0) (.obj []) (List.replicate 300 120)
    (by decide) (by decide) (by decide) rfl rfl (by decide) rfl (by decide)).1

/-- C7: every JSON-level failure of set or remove — parse failure, non-object
root, `NO_CREATE` with an absent key, a failed dump, or a serialisation that
does not fit — returns its typed error before any device write, leaving the
manager state (devices, digests, counters) unchanged.  The remove operation
is modelled from the spec, its definition being absent from the sources. -/
theorem claim7_json_errors (sha : List Nat → List Nat)
    (loads : List Nat → Option Jansson) (dumps : Jansson → Option (List Nat))
    (st : Mgr) (kk vv : List Nat) (flags : Nat) (g : Eeprom) (gb : List Nat)
    (hne : st.pool.isEmpty = false)
    (hgi : st.pool.get? st.gi = some g)
    (hgd : g.data = some gb) :
    (loads (cstr gb) = none →
      eeprom_manager_set_value sha loads dumps st (some kk) (some vv) flags
        = (.emErr .jsonParseFail, st) ∧
      eeprom_manager_remove_key sha loads dumps st (some kk)
        = (.emErr .jsonParseFail, st))
  ∧ (∀ root, loads (cstr gb) = some root → isObj root = false →
      eeprom_manager_set_value sha loads dumps st (some kk) (some vv) flags
        = (.emErr .jsonRootNotObject, st) ∧
      eeprom_manager_remove_key sha loads dumps st (some kk)
        = (.emErr .jsonRootNotObject, st))
  ∧ (∀ root, loads (cstr gb) = some root → isObj root = true →
      flags % 2 = 1 → (objGet root kk).isNone = true →
      eeprom_manager_set_value sha loads dumps st (some kk) (some vv) flags
        = (.emErr .writeKeyNotFound, st))
  ∧ (∀ root, loads (cstr gb) = some root → isObj root = true →
      ¬(flags % 2 = 1 ∧ (objGet root kk).isNone = true) →
      dumps (objSet root kk (.str vv)) = none →
      eeprom_manager_set_value sha loads dumps st (some kk) (some vv) flags
        = (.emErr .janssonError, st))
  ∧ (∀ root, loads (cstr gb) = some root → isObj root = true →
      dumps (objDel root kk) = none →
      eeprom_manager_remove_key sha loads dumps st (some kk)
        = (.emErr .janssonError, st))
  ∧ (∀ root dump, loads (cstr gb) = some root → isObj root = true →
      ¬(flags % 2 = 1 ∧ (objGet root kk).isNone = true) →
      dumps (objSet root kk (.str vv)) = some dump →
      st.dataSize < (cstr dump).length + 1 →
      eeprom_manager_set_value sha loads dumps st (some kk) (some vv) flags
        = (.emErr .writeJsonTooLong, st))
  ∧ (∀ root dump, loads (cstr gb) = some root → isObj root = true →
      dumps (objDel root kk) = some dump →
      st.dataSize < (cstr dump).length + 1 →
      eeprom_manager_remove_key sha loads dumps st (some kk)
        = (.emErr .writeJsonTooLong, st)) := by
  refine ⟨?_, ?_, ?_, ?_, ?_, ?_, ?_⟩
  · intro hl
    constructor
    · simp only [eeprom_manager_set_value]
      rw [if_neg (by simp [is_initialized, hne])]
      simp only [hgi, hgd, Option.getD_some, hl]
    · simp only [eeprom_manager_remove_key]
      rw [if_neg (by simp [is_initialized, hne])]
      simp only [hgi, hgd, Option.getD_some, hl]
  · intro root hl hobj
    constructor
    · simp only [eeprom_manager_set_value]
      rw [if_neg (by simp [is_initialized, hne])]
      simp only [hgi, hgd, Option.getD_some, hl, hobj, if_true]
    · simp only [eeprom_manager_remove_key]
      rw [if_neg (by simp [is_initialized, hne])]
      simp only [hgi, hgd, Option.getD_some, hl, hobj, if_true]
  · intro root hl hobj hflags hget
    simp only [eeprom_manager_set_value]
    rw [if_neg (by simp [is_initialized, hne])]
    simp only [hgi, hgd, Option.getD_some, hl, hobj, Bool.true_eq_false, if_false]
    rw [if_pos ⟨hflags, by simpa using hget⟩]
  · intro root hl hobj hnc hdumps
    simp only [eeprom_manager_set_value]
    rw [if_neg (by simp [is_initialized, hne])]
    simp only [hgi, hgd, Option.getD_some, hl, hobj, Bool.true_eq_false, if_false]
    rw [if_neg (by simpa using hnc)]
    simp only [hdumps]
    rw [eeprom_data_eta g gb hgd, set_self_of_get? _ _ _ hgi]
  · intro root hl hobj hdumps
    simp only [eeprom_manager_remove_key]
    rw [if_neg (by simp [is_initialized, hne])]
    simp only [hgi, hgd, Option.getD_some, hl, hobj, Bool.true_eq_false, if_false, hdumps]
  · intro root dump hl hobj hnc hdumps htoolong
    simp only [eeprom_manager_set_value]
    rw [if_neg (by simp [is_initialized, hne])]
    simp only [hgi, hgd, Option.getD_some, hl, hobj, Bool.true_eq_false, if_false]
    rw [if_neg (by simpa using hnc)]
    simp only [hdumps]
    rw [if_pos htoolong]
    rw [eeprom_data_eta g gb hgd, set_self_of_get? _ _ _ hgi]
  · intro root dump hl hobj hdumps htoolong
    simp only [eeprom_manager_remove_key]
    rw [if_neg (by simp [is_initialized, hne])]
    simp only [hgi, hgd, Option.getD_some, hl, hobj, Bool.true_eq_false, if_false, hdumps]
    rw [if_pos htoolong]

set_option maxRecDepth 20000 in
theorem claim7_witness :
    eeprom_manager_set_value shaFix loadsFailFix dumpsFailFix stC7 (some [107]) (some [118]) 0
      = (.emErr .jsonParseFail, stC7) ∧
    eeprom_manager_remove_key shaFix loadsFailFix dumpsFailFix stC7 (some [107])
      = (.emErr .jsonParseFail, stC7) := by
  exact (claim7_json_errors shaFix loadsFailFix dumpsFailFix stC7 [107] [118] 0
    (stC7.pool.headD eC3) ([123, 125] ++ List.replicate 164 0)
    (by decide) (by decide) (by decide)).1 rfl

set_option maxRecDepth 20000 in
/-- C9 (code bug): the header documents a NULL `value` as equivalent to the
empty string, but `eeprom_manager_set_value` rejects it up front with
`errno = EINVAL` on an initialised manager, before any JSON or device
activity. -/
theorem claim9_null_value_einval :
    eeprom_manager_set_value shaFix loadsObjFix dumpsFailFix stC7 (some [107]) none 0
      = (.errnoFail EINVAL, stC7) ∧
    eeprom_manager_set_value shaFix loadsObjFix dumpsFailFix stC7 (some [107]) none 0
      ≠ eeprom_manager_set_value shaFix loadsObjFix dumpsFailFix stC7 (some [107]) (some []) 0 := by
  refine ⟨by decide, by decide⟩

/-- C10: with no pool built (`first_eeprom == NULL`), every store operation
fails immediately with `-1` and `errno = EINVAL` without touching any device,
and `eeprom_manager_info` returns NULL. -/
theorem claim10_uninitialized (sha : List Nat → List Nat)
    (loads : List Nat → Option Jansson) (dumps : Jansson → Option (List Nat))
    (st : Mgr) (key value : Option (List Nat)) (flags : Nat) (valueNull : Bool) (length : Nat)
    (hempty : st.pool = []) :
    eeprom_manager_set_value sha loads dumps st key value flags = (.errnoFail EINVAL, st)
  ∧ eeprom_manager_read_value loads st key valueNull length = (.errnoFail EINVAL, st, none)
  ∧ eeprom_manager_clear sha st = (.errnoFail EINVAL, st)
  ∧ eeprom_manager_verify sha st = (.errnoFail EINVAL, st)
  ∧ eeprom_manager_info st = none := by
  have hinit : is_initialized st = false := by simp [is_initialized, hempty]
  refine ⟨?_, ?_, ?_, ?_, ?_⟩
  · rw [eeprom_manager_set_value, if_pos (Or.inl hinit)]
  · rw [eeprom_manager_read_value, if_pos (Or.inl hinit)]
  · rw [eeprom_manager_clear, if_pos hinit]
  · rw [eeprom_manager_verify, if_pos hinit]
  · rw [eeprom_manager_info, if_pos hinit]

theorem claim10_witness :
    eeprom_manager_set_value shaFix loadsObjFix dumpsFailFix stEmpty (some [107]) (some [118]) 0
      = (.errnoFail EINVAL, stEmpty) ∧
    eeprom_manager_info stEmpty = none := by
  have h := claim10_uninitialized shaFix loadsObjFix dumpsFailFix stEmpty
    (some [107]) (some [118]) 0 false 5 rfl
  exact ⟨h.1, h.2.2.2.2⟩

theorem magicOk_congr (e e0 : Eeprom) (hdev : e.dev = e0.dev) (hbs : e.bs = e0.bs) :
    magicOk e = magicOk e0 := by
  rw [magicOk, magicOk, footerOff, footerOff, hdev, hbs]

theorem footerShaOf_congr (e e0 : Eeprom) (hdev : e.dev = e0.dev) (hbs : e.bs = e0.bs) :
    footerShaOf e = footerShaOf e0 := by
  rw [footerShaOf, footerShaOf, footerOff, footerOff, hdev, hbs]

theorem footerWcP_congr (e e0 : Eeprom) (hdev : e.dev = e0.dev) (hbs : e.bs = e0.bs) :
    footerWcP e = footerWcP e0 := by
  rw [footerWcP, footerWcP, footerOff, footerOff, hdev, hbs]

theorem verifiesB_congr (sha : List Nat → List Nat) (e e0 : Eeprom)
    (hdev : e.dev = e0.dev) (hbs : e.bs = e0.bs) :
    verifiesB sha e = verifiesB sha e0 := by
  rw [verifiesB, verifiesB, docOf, docOf, hdev, footerShaOf_congr e e0 hdev hbs]

theorem metaUpd_fields (e : Eeprom) :
    (metaUpd e).dev = e.dev ∧ (metaUpd e).bs = e.bs ∧ (metaUpd e).count = e.count ∧
    (metaUpd e).data = e.data ∧ (metaUpd e).sha256 = footerShaOf e ∧
    (metaUpd e).wc = footerWcOf e :=
  ⟨rfl, rfl, rfl, rfl, rfl, rfl⟩

theorem read_eeprom_metadata_of_ok_parse (e : Eeprom) (hm : magicOk e = true)
    (hp : (footerWcP e).isSome = true) (hbs : 83 ≤ e.bs) :
    read_eeprom_metadata e = (.ok, metaUpd e) := by
  rw [read_eeprom_metadata_of_ok e hm hbs]
  obtain ⟨w, hw⟩ := Option.isSome_iff_exists.mp hp
  rw [metaUpd]
  have hgd : (footerWcP e).getD e.wc = footerWcOf e := by
    simp [footerWcOf, hw]
  rw [hgd]

/-- `verify_eeprom` on a well-sized, valid-magic replica: the outcome is
exactly the digest comparison of the device contents against the stored
footer digest, the device and geometry stay untouched, and a failing replica
has its buffer freed. -/
theorem verify_eeprom_spec (sha : List Nat → List Nat) (gsz : Nat) (e : Eeprom)
    (hdev : e.dev.length = e.bs * e.count) (hbs83 : 83 ≤ e.bs) (hm : magicOk e = true) :
    ((verify_eeprom sha gsz e).1 = if verifiesB sha e then VerifyR.ok else .checksumFailed)
  ∧ (verify_eeprom sha gsz e).2.dev = e.dev
  ∧ (verify_eeprom sha gsz e).2.bs = e.bs
  ∧ (verify_eeprom sha gsz e).2.count = e.count
  ∧ (verifiesB sha e = false → (verify_eeprom sha gsz e).2.data = none) := by
  obtain ⟨h1, h2, h3, h4, ⟨buf, hb, hbc⟩, h6, h7⟩ := read_write_eeprom_r_spec gsz e hdev hbs83
  obtain ⟨hsha, hwc⟩ := h6 hm
  have hnn : ¬ (read_write_eeprom_r gsz e).1 < 0 := by
    rw [h1]
    exact not_lt.mpr (Int.natCast_nonneg _)
  have hs : sha (cstr (((read_write_eeprom_r gsz e).2.data).getD [])) = sha (docOf e) := by
    rw [hb]
    simp only [Option.getD_some]
    rw [hbc]
    rfl
  cases hv : verifiesB sha e with
  | true =>
    have heq : sha (docOf e) = footerShaOf e := by
      rw [verifiesB, beq_iff_eq] at hv
      exact hv
    have hne : ¬ (sha (cstr (((read_write_eeprom_r gsz e).2.data).getD [])) ≠ (read_write_eeprom_r gsz e).2.sha256) := by
      rw [hs, hsha, heq]
      simp
    have hgoal : verify_eeprom sha gsz e = (.ok, (read_write_eeprom_r gsz e).2) := by
      rw [verify_eeprom]
      simp only [if_neg hnn, if_neg hne]
    rw [hgoal]
    exact ⟨rfl, h2, h3, h4, fun hc => nomatch hc⟩
  | false =>
    have hne : sha (docOf e) ≠ footerShaOf e := by
      rw [verifiesB] at hv
      simpa using hv
    have hd : sha (cstr (((read_write_eeprom_r gsz e).2.data).getD [])) ≠ (read_write_eeprom_r gsz e).2.sha256 := by
      rw [hs, hsha]
      exact hne
    have hgoal : verify_eeprom sha gsz e =
        (.checksumFailed, { (read_write_eeprom_r gsz e).2 with data := none }) := by
      rw [verify_eeprom]
      simp only [if_neg hnn, if_pos hd]
    rw [hgoal]
    exact ⟨rfl, h2, h3, h4, fun _ => rfl⟩

theorem get?_some_lt (l : List Eeprom) (i : Nat) (a : Eeprom) (h : l.get? i = some a) :
    i < l.length := by
  by_contra hc
  rw [List.get?_eq_none.mpr (Nat.le_of_not_lt hc)] at h
  cases h

/-- The verification phase tried on candidates whose devices coincide with
reference pool entries returns the first candidate whose stored digest
matches the recomputed one, and every pool entry is either untouched, has
a freed buffer, or is the returned winner. -/
theorem findGoodLoop2_spec (sha : List Nat → List Nat) (gsz : Nat) (pool0 : List Eeprom) :
    ∀ (ml : List Nat) (pool : List Eeprom),
      (∀ a ∈ ml, ∃ e0 e, pool0.get? a = some e0 ∧ pool.get? a = some e ∧
        e.dev = e0.dev ∧ e.bs = e0.bs ∧ e.count = e0.count ∧
        magicOk e0 = true ∧ e0.dev.length = e0.bs * e0.count ∧ 83 ≤ e0.bs) →
      (findGoodLoop2 sha gsz ml pool).1
        = ml.find? (fun a => match pool0.get? a with | some e => verifiesB sha e | none => false)
      ∧ ∀ j, (findGoodLoop2 sha gsz ml pool).2.get? j = pool.get? j
          ∨ ((findGoodLoop2 sha gsz ml pool).2.get? j).map Eeprom.data = some none
          ∨ (findGoodLoop2 sha gsz ml pool).1 = some j := by
  intro ml
  induction ml with
  | nil =>
    intro pool _
    exact ⟨rfl, fun j => Or.inl rfl⟩
  | cons idx rest ih =>
    intro pool h
    obtain ⟨e0, e, he0, he, hdev', hbs', hcnt', hm0, hlen0, hbspos⟩ :=
      h idx (List.mem_cons_self idx rest)
    have hm : magicOk e = true := by rw [magicOk_congr e e0 hdev' hbs']; exact hm0
    have hlen : e.dev.length = e.bs * e.count := by rw [hdev', hbs', hcnt']; exact hlen0
    have hbspos' : 83 ≤ e.bs := by rw [hbs']; exact hbspos
    have hvB : verifiesB sha e = verifiesB sha e0 := verifiesB_congr sha e e0 hdev' hbs'
    obtain ⟨hv1, hv2, hv3, hv4, hv5⟩ := verify_eeprom_spec sha gsz e hlen hbspos' hm
    have hlt : idx < pool.length := get?_some_lt pool idx e he
    have hstep : findGoodLoop2 sha gsz (idx :: rest) pool =
        match (verify_eeprom sha gsz e).1 with
        | .ok => (some idx, pool.set idx (verify_eeprom sha gsz e).2)
        | .checksumFailed =>
            findGoodLoop2 sha gsz rest (pool.set idx (verify_eeprom sha gsz e).2)
        | .readFailed =>
            findGoodLoop2 sha gsz rest (pool.set idx (verify_eeprom sha gsz e).2) := by
      rw [findGoodLoop2]
      rw [he]
    cases hv : verifiesB sha e0 with
    | true =>
      have hpos : (fun a => match pool0.get? a with
          | some e => verifiesB sha e
          | none => false) idx = true := by
        show (match pool0.get? idx with | some e => verifiesB sha e | none => false) = true
        rw [he0]
        exact hv
      have hok : (verify_eeprom sha gsz e).1 = .ok := by
        rw [hv1, hvB, hv]
        rfl
      rw [hstep, hok]
      refine ⟨(List.find?_cons_of_pos rest hpos).symm, fun j => ?_⟩
      by_cases hj : j = idx
      · exact Or.inr (Or.inr (by rw [hj]))
      · exact Or.inl (get?_set_ne pool idx j _ (fun hc => hj hc.symm))
    | false =>
      have hneg : ¬ ((fun a => match pool0.get? a with
          | some e => verifiesB sha e
          | none => false) idx = true) := by
        show ¬ ((match pool0.get? idx with | some e => verifiesB sha e | none => false) = true)
        rw [he0]
        exact fun hc => nomatch hv.symm.trans hc
      have hfail : (verify_eeprom sha gsz e).1 = .checksumFailed := by
        rw [hv1, hvB]
        rw [hv]
        rfl
      have hdata : (verify_eeprom sha gsz e).2.data = none := hv5 (hvB.trans hv)
      rw [hstep, hfail]
      have hrest : ∀ a ∈ rest, ∃ e0' e', pool0.get? a = some e0' ∧
          (pool.set idx (verify_eeprom sha gsz e).2).get? a = some e' ∧
          e'.dev = e0'.dev ∧ e'.bs = e0'.bs ∧ e'.count = e0'.count ∧
          magicOk e0' = true ∧ e0'.dev.length = e0'.bs * e0'.count ∧ 83 ≤ e0'.bs := by
        intro a ha
        obtain ⟨ea0, ea, hae0, hae, had, hab, hac, ham, hal, habs⟩ :=
          h a (List.mem_cons_of_mem idx ha)
        by_cases haq : a = idx
        · subst haq
          exact ⟨e0, (verify_eeprom sha gsz e).2, he0,
            get?_set_self pool a _ hlt,
            by rw [hv2, hdev'], by rw [hv3, hbs'],
            by rw [hv4, hcnt'], hm0, hlen0, hbspos⟩
        · exact ⟨ea0, ea, hae0, by rw [get?_set_ne pool idx a _ (fun hc => haq hc.symm)]; exact hae,
            had, hab, hac, ham, hal, habs⟩
      obtain ⟨ih1, ih2⟩ := ih (pool.set idx (verify_eeprom sha gsz e).2) hrest
      refine ⟨by rw [ih1, List.find?_cons_of_neg rest hneg], fun j => ?_⟩
      rcases ih2 j with hc1 | hc2 | hc3
      · by_cases hj : j = idx
        · subst hj
          rw [hc1]
          refine Or.inr (Or.inl ?_)
          rw [get?_set_self pool j _ hlt]
          rw [Option.map_some', hdata]
        · rw [hc1]
          exact Or.inl (get?_set_ne pool idx j _ (fun hc => hj hc.symm))
      · exact Or.inr (Or.inl hc2)
      · exact Or.inr (Or.inr hc3)

/-- Metadata-phase invariant of `find_good_eeprom`: starting from an untouched
pool and an empty candidate array, the loop loads every valid footer into its
entry and ends with a sorted, complete list of the indices carrying the
maximal footer counter (empty exactly when no replica has a valid magic). -/
theorem findGoodLoop1_spec (pool0 : List Eeprom)
    (hwf : ∀ j e, pool0.get? j = some e → magicOk e = true → (footerWcP e).isSome = true)
    (hbs83 : ∀ j e, pool0.get? j = some e → 83 ≤ e.bs) :
    ∀ (f : Nat), ∀ (idx : Nat) (pool : List Eeprom) (ml : List Nat),
      pool0.length = idx + f →
      pool.length = pool0.length →
      (∀ j e1, pool0.get? j = some e1 →
        pool.get? j = some (if j < idx ∧ magicOk e1 = true then metaUpd e1 else e1)) →
      (ml = [] → ∀ j, j < idx → ¬ validAt pool0 j) →
      (∀ a ∈ ml, a < idx ∧ validAt pool0 a ∧ fwAt pool0 a = fwAt pool0 (ml.headD 0)) →
      (∀ j, j < idx → validAt pool0 j → fwAt pool0 j ≤ fwAt pool0 (ml.headD 0)) →
      (∀ j, j < idx → validAt pool0 j → fwAt pool0 j = fwAt pool0 (ml.headD 0) → j ∈ ml) →
      ml.Pairwise (· ≤ ·) →
      (findGoodLoop1 f idx pool ml).1.length = pool0.length
      ∧ (∀ j e1, pool0.get? j = some e1 →
          (findGoodLoop1 f idx pool ml).1.get? j
            = some (if magicOk e1 = true then metaUpd e1 else e1))
      ∧ ((findGoodLoop1 f idx pool ml).2.1 = [] → ∀ j, ¬ validAt pool0 j)
      ∧ (∀ a ∈ (findGoodLoop1 f idx pool ml).2.1, validAt pool0 a ∧
          fwAt pool0 a = fwAt pool0 ((findGoodLoop1 f idx pool ml).2.1.headD 0))
      ∧ (∀ j, validAt pool0 j →
          fwAt pool0 j ≤ fwAt pool0 ((findGoodLoop1 f idx pool ml).2.1.headD 0))
      ∧ (∀ j, validAt pool0 j →
          fwAt pool0 j = fwAt pool0 ((findGoodLoop1 f idx pool ml).2.1.headD 0) →
          j ∈ (findGoodLoop1 f idx pool ml).2.1)
      ∧ (findGoodLoop1 f idx pool ml).2.1.Pairwise (· ≤ ·)
      ∧ (findGoodLoop1 f idx pool ml).2.2 = none := by
  intro f
  induction f with
  | zero =>
    intro idx pool ml hlen hplen hpinv hnil hmem hmax hcov hsort
    refine ⟨hplen, ?_, ?_, ?_, ?_, ?_, hsort, rfl⟩
    · intro j e1 he1
      have hjlt : j < idx := by
        have := get?_some_lt pool0 j e1 he1
        omega
      have h := hpinv j e1 he1
      by_cases hmg : magicOk e1 = true
      · rw [if_pos ⟨hjlt, hmg⟩] at h
        rw [if_pos hmg]
        exact h
      · rw [if_neg (fun hc => hmg hc.2)] at h
        rw [if_neg hmg]
        exact h
    · intro h j hvj
      have hjlt : j < idx := by
        obtain ⟨e, he, _⟩ := hvj
        have := get?_some_lt pool0 j e he
        omega
      exact hnil h j hjlt hvj
    · intro a ha
      obtain ⟨_, h2, h3⟩ := hmem a ha
      exact ⟨h2, h3⟩
    · intro j hvj
      have hjlt : j < idx := by
        obtain ⟨e, he, _⟩ := hvj
        have := get?_some_lt pool0 j e he
        omega
      exact hmax j hjlt hvj
    · intro j hvj heqj
      have hjlt : j < idx := by
        obtain ⟨e, he, _⟩ := hvj
        have := get?_some_lt pool0 j e he
        omega
      exact hcov j hjlt hvj heqj
  | succ f ih =>
    intro idx pool ml hlen hplen hpinv hnil hmem hmax hcov hsort
    have hidxlt : idx < pool0.length := by omega
    cases hg : pool0.get? idx with
    | none =>
      exfalso
      have := List.get?_eq_none.mp hg
      omega
    | some e0 =>
      have hpool_idx : pool.get? idx = some e0 := by
        have h := hpinv idx e0 hg
        rw [if_neg (fun hc => Nat.lt_irrefl idx hc.1)] at h
        exact h
      cases hm : magicOk e0 with
      | false =>
        have hstep : findGoodLoop1 (f + 1) idx pool ml = findGoodLoop1 f (idx + 1) pool ml := by
          simp only [findGoodLoop1, hpool_idx,
            read_eeprom_metadata_of_badMagic e0 hm (by have := hbs83 idx e0 hg; omega)]
        have hnotval : ¬ validAt pool0 idx := by
          rintro ⟨e', he', hm'⟩
          have he'e0 : e' = e0 := by injection he'.symm.trans hg
          rw [he'e0] at hm'
          rw [hm] at hm'
          cases hm'
        have hpinv' : ∀ j e1, pool0.get? j = some e1 →
            pool.get? j = some (if j < idx + 1 ∧ magicOk e1 = true then metaUpd e1 else e1) := by
          intro j e1 he1
          rw [hpinv j e1 he1]
          by_cases hmg : magicOk e1 = true
          · by_cases hjlt : j < idx
            · rw [if_pos ⟨hjlt, hmg⟩, if_pos ⟨by omega, hmg⟩]
            · by_cases hji : j = idx
              · exfalso
                apply hnotval
                refine ⟨e1, ?_, hmg⟩
                rw [← hji]
                exact he1
              · rw [if_neg (fun hc => hjlt hc.1),
                   if_neg (fun hc => hjlt (Nat.lt_of_le_of_ne (Nat.lt_succ_iff.mp hc.1) hji))]
          · rw [if_neg (fun hc => hmg hc.2), if_neg (fun hc => hmg hc.2)]
        have hnil' : ml = [] → ∀ j, j < idx + 1 → ¬ validAt pool0 j := by
          intro h j hj
          by_cases hji : j = idx
          · rw [hji]
            exact hnotval
          · exact hnil h j (by omega)
        have hmem' : ∀ a ∈ ml, a < idx + 1 ∧ validAt pool0 a ∧
            fwAt pool0 a = fwAt pool0 (ml.headD 0) := by
          intro a ha
          obtain ⟨h1, h2, h3⟩ := hmem a ha
          exact ⟨by omega, h2, h3⟩
        have hmax' : ∀ j, j < idx + 1 → validAt pool0 j →
            fwAt pool0 j ≤ fwAt pool0 (ml.headD 0) := by
          intro j hj hvj
          by_cases hji : j = idx
          · exfalso
            rw [hji] at hvj
            exact hnotval hvj
          · exact hmax j (by omega) hvj
        have hcov' : ∀ j, j < idx + 1 → validAt pool0 j →
            fwAt pool0 j = fwAt pool0 (ml.headD 0) → j ∈ ml := by
          intro j hj hvj heqj
          by_cases hji : j = idx
          · exfalso
            rw [hji] at hvj
            exact hnotval hvj
          · exact hcov j (by omega) hvj heqj
        rw [hstep]
        exact ih (idx + 1) pool ml (by omega) hplen hpinv' hnil' hmem' hmax' hcov' hsort
      | true =>
        have hd' : read_eeprom_metadata e0 = (.ok, metaUpd e0) :=
          read_eeprom_metadata_of_ok_parse e0 hm (hwf idx e0 hg hm) (hbs83 idx e0 hg)
        have hidxp : idx < pool.length := by omega
        have hvalidx : validAt pool0 idx := ⟨e0, hg, hm⟩
        have hfw : fwAt pool0 idx = footerWcOf e0 := by
          simp only [fwAt, hg]
        have hplen' : (pool.set idx (metaUpd e0)).length = pool0.length := by
          rw [List.length_set]
          exact hplen
        have hpinv' : ∀ j e1, pool0.get? j = some e1 →
            (pool.set idx (metaUpd e0)).get? j
              = some (if j < idx + 1 ∧ magicOk e1 = true then metaUpd e1 else e1) := by
          intro j e1 he1
          by_cases hji : j = idx
          · subst hji
            have he1e0 : e1 = e0 := by injection he1.symm.trans hg
            rw [he1e0, get?_set_self pool j (metaUpd e0) hidxp,
               if_pos ⟨Nat.lt_succ_self j, hm⟩]
          · rw [get?_set_ne pool idx j (metaUpd e0) (fun hc => hji hc.symm), hpinv j e1 he1]
            by_cases hmg : magicOk e1 = true
            · by_cases hjlt : j < idx
              · rw [if_pos ⟨hjlt, hmg⟩, if_pos ⟨by omega, hmg⟩]
              · rw [if_neg (fun hc => hjlt hc.1),
                    if_neg (fun hc => hjlt (Nat.lt_of_le_of_ne (Nat.lt_succ_iff.mp hc.1) hji))]
            · rw [if_neg (fun hc => hmg hc.2), if_neg (fun hc => hmg hc.2)]
        cases ml with
        | nil =>
          have hstep : findGoodLoop1 (f + 1) idx pool [] =
              findGoodLoop1 f (idx + 1) (pool.set idx (metaUpd e0)) [idx] := by
            simp only [findGoodLoop1, hpool_idx, hd']
          have hnil' : ([idx] : List Nat) = [] → ∀ j, j < idx + 1 → ¬ validAt pool0 j :=
            fun h => nomatch h
          have hmem' : ∀ a ∈ ([idx] : List Nat), a < idx + 1 ∧ validAt pool0 a ∧
              fwAt pool0 a = fwAt pool0 (([idx] : List Nat).headD 0) := by
            intro a ha
            rw [List.mem_singleton] at ha
            rw [ha]
            exact ⟨Nat.lt_succ_self idx, hvalidx, rfl⟩
          have hmax' : ∀ j, j < idx + 1 → validAt pool0 j →
              fwAt pool0 j ≤ fwAt pool0 (([idx] : List Nat).headD 0) := by
            intro j hj hvj
            by_cases hji : j = idx
            · subst hji
              exact Nat.le_refl _
            · exact absurd hvj (hnil rfl j (by omega))
          have hcov' : ∀ j, j < idx + 1 → validAt pool0 j →
              fwAt pool0 j = fwAt pool0 (([idx] : List Nat).headD 0) →
              j ∈ ([idx] : List Nat) := by
            intro j hj hvj heqj
            by_cases hji : j = idx
            · subst hji
              exact List.mem_singleton.mpr rfl
            · exact absurd hvj (hnil rfl j (by omega))
          rw [hstep]
          exact ih (idx + 1) (pool.set idx (metaUpd e0)) [idx] (by omega) hplen' hpinv'
            hnil' hmem' hmax' hcov' (by simp)
        | cons m0 tl =>
          obtain ⟨hm0lt, hm0val, hm0fw⟩ := hmem m0 (List.mem_cons_self m0 tl)
          obtain ⟨em, hem, hmm⟩ := hm0val
          have hne0 : idx ≠ m0 := fun hc => (Nat.ne_of_lt hm0lt) hc.symm
          have hm0valid : validAt pool0 m0 := ⟨em, hem, hmm⟩
          have hpm0 : pool.get? m0 = some (metaUpd em) := by
            have h := hpinv m0 em hem
            rw [if_pos ⟨hm0lt, hmm⟩] at h
            exact h
          have hwcm0 : wcAt (pool.set idx (metaUpd e0)) m0 = fwAt pool0 m0 := by
            simp only [wcAt]
            rw [get?_set_ne pool idx m0 (metaUpd e0) hne0, hpm0]
            simp only [fwAt, hem, metaUpd]
          have hwcidx : wcAt (pool.set idx (metaUpd e0)) idx = footerWcOf e0 := by
            simp only [wcAt]
            rw [get?_set_self pool idx (metaUpd e0) hidxp]
            rfl
          have hmw : (metaUpd e0).wc = footerWcOf e0 := rfl
          by_cases hlt1 : fwAt pool0 m0 < footerWcOf e0
          · have hstep : findGoodLoop1 (f + 1) idx pool (m0 :: tl) =
                findGoodLoop1 f (idx + 1) (pool.set idx (metaUpd e0)) [idx, idx] := by
              simp only [findGoodLoop1, hpool_idx, hd', hmw, hwcm0]
              rw [if_pos hlt1]
              simp only [List.headD_cons]
              rw [if_pos hwcidx.symm]
              rfl
            have hmem1 : ∀ a ∈ ([idx, idx] : List Nat), a < idx + 1 ∧ validAt pool0 a ∧
                fwAt pool0 a = fwAt pool0 (([idx, idx] : List Nat).headD 0) := by
              intro a ha
              have haidx : a = idx := by
                rcases List.mem_cons.mp ha with h | h
                · exact h
                · exact List.mem_singleton.mp h
              subst haidx
              exact ⟨Nat.lt_succ_self a, hvalidx, rfl⟩
            have hmax1 : ∀ j, j < idx + 1 → validAt pool0 j →
                fwAt pool0 j ≤ fwAt pool0 (([idx, idx] : List Nat).headD 0) := by
              intro j hj hvj
              by_cases hji : j = idx
              · subst hji
                exact Nat.le_refl _
              · have h1 : fwAt pool0 j ≤ fwAt pool0 m0 := hmax j (by omega) hvj
                have h2 : fwAt pool0 (([idx, idx] : List Nat).headD 0) = footerWcOf e0 := hfw
                rw [h2]
                exact Nat.le_of_lt (Nat.lt_of_le_of_lt h1 hlt1)
            have hcov1 : ∀ j, j < idx + 1 → validAt pool0 j →
                fwAt pool0 j = fwAt pool0 (([idx, idx] : List Nat).headD 0) →
                j ∈ ([idx, idx] : List Nat) := by
              intro j hj hvj heqj
              by_cases hji : j = idx
              · subst hji
                exact List.mem_cons_self _ _
              · exfalso
                have h1 : fwAt pool0 j ≤ fwAt pool0 m0 := hmax j (by omega) hvj
                have heq2 : fwAt pool0 j = footerWcOf e0 := by
                  rw [← hfw]
                  exact heqj
                omega
            rw [hstep]
            exact ih (idx + 1) (pool.set idx (metaUpd e0)) [idx, idx] (by omega) hplen'
              hpinv' (fun h => nomatch h) hmem1 hmax1 hcov1 (by simp)
          · by_cases heq2 : footerWcOf e0 = fwAt pool0 m0
            · have hstep : findGoodLoop1 (f + 1) idx pool (m0 :: tl) =
                  findGoodLoop1 f (idx + 1) (pool.set idx (metaUpd e0)) ((m0 :: tl) ++ [idx]) := by
                simp only [findGoodLoop1, hpool_idx, hd', hmw, hwcm0]
                rw [if_neg hlt1]
                simp only [List.headD_cons]
                rw [if_pos (heq2.trans hwcm0.symm)]
              have hmem2 : ∀ a ∈ (m0 :: tl) ++ [idx], a < idx + 1 ∧ validAt pool0 a ∧
                  fwAt pool0 a = fwAt pool0 (((m0 :: tl) ++ [idx]).headD 0) := by
                intro a ha
                rcases List.mem_append.mp ha with h | h
                · obtain ⟨h1, h2, h3⟩ := hmem a h
                  exact ⟨by omega, h2, h3⟩
                · rw [List.mem_singleton] at h
                  rw [h]
                  refine ⟨Nat.lt_succ_self idx, hvalidx, ?_⟩
                  rw [hfw]
                  exact heq2
              have hmax2 : ∀ j, j < idx + 1 → validAt pool0 j →
                  fwAt pool0 j ≤ fwAt pool0 (((m0 :: tl) ++ [idx]).headD 0) := by
                intro j hj hvj
                by_cases hji : j = idx
                · rw [hji, hfw]
                  exact Nat.le_of_eq heq2
                · exact hmax j (by omega) hvj
              have hcov2 : ∀ j, j < idx + 1 → validAt pool0 j →
                  fwAt pool0 j = fwAt pool0 (((m0 :: tl) ++ [idx]).headD 0) →
                  j ∈ (m0 :: tl) ++ [idx] := by
                intro j hj hvj heqj
                by_cases hji : j = idx
                · subst hji
                  exact List.mem_append_right _ (List.mem_singleton.mpr rfl)
                · exact List.mem_append_left _ (hcov j (by omega) hvj heqj)
              have hsort2 : ((m0 :: tl) ++ [idx]).Pairwise (· ≤ ·) := by
                rw [List.pairwise_append]
                refine ⟨hsort, by simp, ?_⟩
                intro a ha b hb
                rw [List.mem_singleton] at hb
                subst hb
                exact Nat.le_of_lt (hmem a ha).1
              rw [hstep]
              exact ih (idx + 1) (pool.set idx (metaUpd e0)) ((m0 :: tl) ++ [idx]) (by omega)
                hplen' hpinv' (fun h => nomatch h) hmem2 hmax2 hcov2 hsort2
            · have hstep : findGoodLoop1 (f + 1) idx pool (m0 :: tl) =
                  findGoodLoop1 f (idx + 1) (pool.set idx (metaUpd e0)) (m0 :: tl) := by
                simp only [findGoodLoop1, hpool_idx, hd', hmw, hwcm0]
                rw [if_neg hlt1]
                simp only [List.headD_cons]
                rw [if_neg (fun hc => heq2 (hc.trans hwcm0))]
              have hle3 : footerWcOf e0 ≤ fwAt pool0 m0 := Nat.le_of_not_lt hlt1
              have hmem3 : ∀ a ∈ m0 :: tl, a < idx + 1 ∧ validAt pool0 a ∧
                  fwAt pool0 a = fwAt pool0 ((m0 :: tl).headD 0) := by
                intro a ha
                obtain ⟨h1, h2, h3⟩ := hmem a ha
                exact ⟨by omega, h2, h3⟩
              have hmax3 : ∀ j, j < idx + 1 → validAt pool0 j →
                  fwAt pool0 j ≤ fwAt pool0 ((m0 :: tl).headD 0) := by
                intro j hj hvj
                by_cases hji : j = idx
                · rw [hji, hfw]
                  exact hle3
                · exact hmax j (by omega) hvj
              have hcov3 : ∀ j, j < idx + 1 → validAt pool0 j →
                  fwAt pool0 j = fwAt pool0 ((m0 :: tl).headD 0) → j ∈ m0 :: tl := by
                intro j hj hvj heqj
                by_cases hji : j = idx
                · exfalso
                  apply heq2
                  rw [← hfw, ← hji]
                  exact heqj
                · exact hcov j (by omega) hvj heqj
              rw [hstep]
              exact ih (idx + 1) (pool.set idx (metaUpd e0)) (m0 :: tl) (by omega)
                hplen' hpinv' (fun h => nomatch h) hmem3 hmax3 hcov3 hsort

theorem fwAt_eq (pool : List Eeprom) (k : Nat) (x : Eeprom) (hk : pool.get? k = some x) :
    fwAt pool k = footerWcOf x := by
  simp only [fwAt]
  rw [hk]

theorem find?_min_of_sorted (p : Nat → Bool) :
    ∀ (l : List Nat), l.Pairwise (· ≤ ·) → ∀ (a : Nat), l.find? p = some a →
      ∀ b ∈ l, p b = true → a ≤ b := by
  intro l
  induction l with
  | nil =>
    intro _ a h
    cases h
  | cons x xs ih =>
    intro hp a h b hb hpb
    cases hx : p x with
    | true =>
      rw [List.find?_cons_of_pos xs hx] at h
      injection h with h1
      rcases List.mem_cons.mp hb with hbx | hbx
      · rw [← h1]
        exact Nat.le_of_eq hbx.symm
      · rw [← h1]
        exact (List.pairwise_cons.mp hp).1 b hbx
    | false =>
      rw [List.find?_cons_of_neg xs (fun hc => nomatch hx.symm.trans hc)] at h
      rcases List.mem_cons.mp hb with hbx | hbx
      · rw [hbx] at hpb
        exact absurd hpb (fun hc => nomatch hx.symm.trans hc)
      · exact ih (List.pairwise_cons.mp hp).2 a h b hbx hpb

theorem goodIdx_intro (sha : List Nat → List Nat) (pool : List Eeprom) (i : Nat) (e : Eeprom)
    (he : pool.get? i = some e) (hm : magicOk e = true)
    (hmax : ∀ j, validAt pool j → fwAt pool j ≤ footerWcOf e)
    (hv : verifiesB sha e = true) : goodIdx sha pool i = true := by
  have hall : pool.all (fun x => !magicOk x || Nat.ble (footerWcOf x) (footerWcOf e)) = true := by
    rw [List.all_eq_true]
    intro x hx
    cases hmx : magicOk x with
    | false => simp [hmx]
    | true =>
      obtain ⟨k, hk⟩ := List.get?_of_mem hx
      have hle := hmax k ⟨x, hk, hmx⟩
      rw [fwAt_eq pool k x hk] at hle
      simp [hmx, Nat.ble_eq, hle]
  simp only [goodIdx, he]
  simp [hm, hall, hv]

theorem goodIdx_elim (sha : List Nat → List Nat) (pool : List Eeprom) (i : Nat)
    (h : goodIdx sha pool i = true) :
    ∃ e, pool.get? i = some e ∧ magicOk e = true ∧
      (∀ j, validAt pool j → fwAt pool j ≤ footerWcOf e) ∧ verifiesB sha e = true := by
  cases he : pool.get? i with
  | none =>
    simp only [goodIdx, he] at h
    cases h
  | some e =>
    simp only [goodIdx, he, Bool.and_eq_true] at h
    obtain ⟨⟨hm, hall⟩, hv⟩ := h
    refine ⟨e, rfl, hm, ?_, hv⟩
    intro j hvj
    obtain ⟨ej, hej, hmj⟩ := hvj
    have hx := List.all_eq_true.mp hall ej (List.get?_mem hej)
    rw [fwAt_eq pool j ej hej]
    rw [hmj] at hx
    simp only [Bool.not_true, Bool.false_or, Nat.ble_eq] at hx
    exact hx

theorem find_good_eeprom_eq (sha : List Nat → List Nat) (gsz : Nat) (pool : List Eeprom) :
    find_good_eeprom sha gsz pool =
      match (findGoodLoop1 pool.length 0 pool []).2.2 with
      | some r => (r, none, (findGoodLoop1 pool.length 0 pool []).1)
      | none =>
        match (findGoodLoop2 sha gsz (findGoodLoop1 pool.length 0 pool []).2.1
                (findGoodLoop1 pool.length 0 pool []).1).1 with
        | some i => (0, some i, (findGoodLoop2 sha gsz (findGoodLoop1 pool.length 0 pool []).2.1
                (findGoodLoop1 pool.length 0 pool []).1).2)
        | none => (EEPROM_MANAGER_ERROR_NO_GOOD_DEVICES_FOUND, none,
            (findGoodLoop2 sha gsz (findGoodLoop1 pool.length 0 pool []).2.1
                (findGoodLoop1 pool.length 0 pool []).1).2) := rfl

/-- C1: on a well-formed pool, `find_good_eeprom` returns with value 0 the
first replica in pool order that has a valid footer magic, carries the
maximal footer counter among the valid-magic replicas, and whose recomputed
document digest matches the stored one (every earlier index fails that
test); every replica other than the winner ends without a cached buffer
(failed candidates are freed by `verify_eeprom`, skipped and untouched ones
never held one); when no candidate verifies it returns
`EEPROM_MANAGER_ERROR_NO_GOOD_DEVICES_FOUND` with no device and no index is
authoritative. -/
theorem claim1_find_good (sha : List Nat → List Nat) (gsz : Nat) (pool : List Eeprom)
    (hwf : poolWF gsz pool) :
    (∀ i, (find_good_eeprom sha gsz pool).2.1 = some i →
      (find_good_eeprom sha gsz pool).1 = 0 ∧
      goodIdx sha pool i = true ∧
      (∀ j, j < i → goodIdx sha pool j = false) ∧
      (∀ j e', j ≠ i → (find_good_eeprom sha gsz pool).2.2.get? j = some e' → e'.data = none))
    ∧ ((find_good_eeprom sha gsz pool).2.1 = none →
      (find_good_eeprom sha gsz pool).1 = EEPROM_MANAGER_ERROR_NO_GOOD_DEVICES_FOUND ∧
      (∀ j, goodIdx sha pool j = false) ∧
      (∀ j e', (find_good_eeprom sha gsz pool).2.2.get? j = some e' → e'.data = none)) := by
  have hwf' : ∀ j e, pool.get? j = some e → magicOk e = true → (footerWcP e).isSome = true := by
    intro j e he hm
    exact (hwf e (List.get?_mem he)).2.2.2.2.2 hm
  have hbs83' : ∀ j e, pool.get? j = some e → 83 ≤ e.bs := by
    intro j e he
    exact (hwf e (List.get?_mem he)).2.1
  obtain ⟨hL1len, hL1pinv, hL1nil, hL1mem, hL1max, hL1cov, hL1sort, hL1err⟩ :=
    findGoodLoop1_spec pool hwf' hbs83' pool.length 0 pool []
      (by omega) rfl
      (fun j e1 he1 => by
        rw [if_neg (fun hc => Nat.not_lt_zero j hc.1)]
        exact he1)
      (fun _ j hj => absurd hj (Nat.not_lt_zero j))
      (fun a ha => absurd ha (List.not_mem_nil a))
      (fun j hj => absurd hj (Nat.not_lt_zero j))
      (fun j hj => absurd hj (Nat.not_lt_zero j))
      List.Pairwise.nil
  have hml : ∀ a ∈ (findGoodLoop1 pool.length 0 pool []).2.1,
      ∃ e0 e, pool.get? a = some e0 ∧
        (findGoodLoop1 pool.length 0 pool []).1.get? a = some e ∧
        e.dev = e0.dev ∧ e.bs = e0.bs ∧ e.count = e0.count ∧
        magicOk e0 = true ∧ e0.dev.length = e0.bs * e0.count ∧ 83 ≤ e0.bs := by
    intro a ha
    obtain ⟨⟨e0, he0, hm0⟩, _⟩ := hL1mem a ha
    have hp1 := hL1pinv a e0 he0
    rw [if_pos hm0] at hp1
    obtain ⟨_, h83, hlen0, _, _, _⟩ := hwf e0 (List.get?_mem he0)
    exact ⟨e0, metaUpd e0, he0, hp1, rfl, rfl, rfl, hm0, hlen0, h83⟩
  obtain ⟨hL2find, hL2pool⟩ :=
    findGoodLoop2_spec sha gsz pool (findGoodLoop1 pool.length 0 pool []).2.1
      (findGoodLoop1 pool.length 0 pool []).1 hml
  have hdata1 : ∀ j e1, (findGoodLoop1 pool.length 0 pool []).1.get? j = some e1 →
      e1.data = none := by
    intro j e1 he1
    cases hg : pool.get? j with
    | none =>
      have hnone : (findGoodLoop1 pool.length 0 pool []).1.get? j = none := by
        rw [List.get?_eq_none, hL1len]
        exact List.get?_eq_none.mp hg
      rw [hnone] at he1
      cases he1
    | some e0 =>
      have hp1 := hL1pinv j e0 hg
      have hd0 : e0.data = none := (hwf e0 (List.get?_mem hg)).2.2.2.2.1
      by_cases hmg : magicOk e0 = true
      · rw [if_pos hmg] at hp1
        rw [hp1] at he1
        injection he1 with h1
        rw [← h1]
        exact hd0
      · rw [if_neg hmg] at hp1
        rw [hp1] at he1
        injection he1 with h1
        rw [← h1]
        exact hd0
  have hdata2 : ∀ j e', (findGoodLoop2 sha gsz (findGoodLoop1 pool.length 0 pool []).2.1
        (findGoodLoop1 pool.length 0 pool []).1).2.get? j = some e' →
      (findGoodLoop2 sha gsz (findGoodLoop1 pool.length 0 pool []).2.1
        (findGoodLoop1 pool.length 0 pool []).1).1 = some j ∨ e'.data = none := by
    intro j e' he'
    rcases hL2pool j with hc | hc | hc
    · right
      rw [he'] at hc
      exact hdata1 j e' hc.symm
    · right
      rw [he', Option.map_some'] at hc
      exact Option.some_inj.mp hc
    · left
      exact hc
  have hkey : ∀ j, goodIdx sha pool j = true →
      j ∈ (findGoodLoop1 pool.length 0 pool []).2.1 ∧
      (fun a => match pool.get? a with
        | some e => verifiesB sha e
        | none => false) j = true := by
    intro j hgj
    obtain ⟨ej, hej, hmj, hmaxj, hvj⟩ := goodIdx_elim sha pool j hgj
    have hvalj : validAt pool j := ⟨ej, hej, hmj⟩
    cases hmlc : (findGoodLoop1 pool.length 0 pool []).2.1 with
    | nil =>
      exact absurd hvalj (hL1nil hmlc j)
    | cons h0 t0 =>
      have hh0mem : h0 ∈ (findGoodLoop1 pool.length 0 pool []).2.1 := by
        rw [hmlc]
        exact List.mem_cons_self h0 t0
      obtain ⟨hvh0, hfwh0⟩ := hL1mem h0 hh0mem
      have hle1 : fwAt pool j ≤ fwAt pool ((findGoodLoop1 pool.length 0 pool []).2.1.headD 0) :=
        hL1max j hvalj
      have hle2 : fwAt pool ((findGoodLoop1 pool.length 0 pool []).2.1.headD 0) ≤ fwAt pool j := by
        have h1 : fwAt pool h0 ≤ footerWcOf ej := hmaxj h0 hvh0
        rw [hmlc, List.headD_cons, fwAt_eq pool j ej hej]
        exact h1
      have heqj : fwAt pool j = fwAt pool ((findGoodLoop1 pool.length 0 pool []).2.1.headD 0) :=
        Nat.le_antisymm hle1 hle2
      refine ⟨hmlc ▸ hL1cov j hvalj heqj, ?_⟩
      show (match pool.get? j with | some e => verifiesB sha e | none => false) = true
      rw [hej]
      exact hvj
  refine ⟨?_, ?_⟩
  · intro i hi
    cases hr : (findGoodLoop2 sha gsz (findGoodLoop1 pool.length 0 pool []).2.1
        (findGoodLoop1 pool.length 0 pool []).1).1 with
    | none =>
      simp only [find_good_eeprom_eq, hL1err, hr] at hi
      cases hi
    | some i0 =>
      simp only [find_good_eeprom_eq, hL1err, hr] at hi
      injection hi with hi0
      obtain rfl := hi0
      have hfind : List.find? (fun a => match pool.get? a with
          | some e => verifiesB sha e
          | none => false) (findGoodLoop1 pool.length 0 pool []).2.1 = some i0 :=
        hL2find.symm.trans hr
      have himem : i0 ∈ (findGoodLoop1 pool.length 0 pool []).2.1 :=
        List.mem_of_find?_eq_some hfind
      have hpi := List.find?_some hfind
      obtain ⟨hvali, hfweq⟩ := hL1mem i0 himem
      obtain ⟨e0, he0, hm0⟩ := hvali
      have hvB : verifiesB sha e0 = true := by
        have hpi' : (match pool.get? i0 with
          | some e => verifiesB sha e
          | none => false) = true := hpi
        rw [he0] at hpi'
        exact hpi'
      refine ⟨by simp only [find_good_eeprom_eq, hL1err, hr], ?_, ?_, ?_⟩
      · exact goodIdx_intro sha pool i0 e0 he0 hm0
          (fun j hvj => by
            have h1 := hL1max j hvj
            rw [← fwAt_eq pool i0 e0 he0, hfweq]
            exact h1) hvB
      · intro j hj
        cases hgj : goodIdx sha pool j with
        | false => rfl
        | true =>
          exfalso
          obtain ⟨hjmem, hpj⟩ := hkey j hgj
          have hij := find?_min_of_sorted (fun a => match pool.get? a with
              | some e => verifiesB sha e
              | none => false) (findGoodLoop1 pool.length 0 pool []).2.1
            hL1sort i0 hfind j hjmem hpj
          omega
      · intro j e' hjne hje'
        simp only [find_good_eeprom_eq, hL1err, hr] at hje'
        rcases hdata2 j e' hje' with hc | hc
        · rw [hr] at hc
          injection hc with h1
          exact absurd h1.symm hjne
        · exact hc
  · intro hnone
    cases hr : (findGoodLoop2 sha gsz (findGoodLoop1 pool.length 0 pool []).2.1
        (findGoodLoop1 pool.length 0 pool []).1).1 with
    | some i0 =>
      simp only [find_good_eeprom_eq, hL1err, hr] at hnone
      cases hnone
    | none =>
      refine ⟨by simp only [find_good_eeprom_eq, hL1err, hr], ?_, ?_⟩
      · intro j
        cases hgj : goodIdx sha pool j with
        | false => rfl
        | true =>
          exfalso
          obtain ⟨hjmem, hpj⟩ := hkey j hgj
          have hfn : List.find? (fun a => match pool.get? a with
              | some e => verifiesB sha e
              | none => false) (findGoodLoop1 pool.length 0 pool []).2.1 = none :=
            hL2find.symm.trans hr
          exact (List.find?_eq_none.mp hfn j hjmem) hpj
      · intro j e' hje'
        simp only [find_good_eeprom_eq, hL1err, hr] at hje'
        rcases hdata2 j e' hje' with hc | hc
        · rw [hr] at hc
          cases hc
        · exact hc

set_option maxRecDepth 20000 in
/-- Witness for C1: on the two-replica fixture pool (a verifying device 0
and an all-zero device 1) quorum selection succeeds with return value 0 and
index 0 is indeed authoritative. -/
theorem claim1_witness :
    poolWF 166 poolC1 ∧
    (find_good_eeprom shaFix 166 poolC1).1 = 0 ∧
    goodIdx shaFix poolC1 0 = true :=
  ⟨by decide,
   ((claim1_find_good shaFix 166 poolC1 (by decide)).1 0 (by decide)).1,
   ((claim1_find_good shaFix 166 poolC1 (by decide)).1 0 (by decide)).2.1⟩
